import Mathlib

/-!
Shallow embedding of the core of the PokerOddTrainer repository
(TypeScript): deck utilities, the hand evaluator, the odds calculator,
the betting engine (pokerLogic.ts together with the state transitions
performed by useGameState.ts) and the AI decision engine (AIOpponent.ts
with its handStrength helpers).

Conventions of the embedding:
- chip amounts are rationals (the engine uses the fractional small
  blind 0.5 and otherwise only adds, subtracts and compares amounts);
- JavaScript Math.floor and Math.round are Int.floor based helpers;
- Math.random() outcomes are passed in explicitly, one rational per
  call site, so AI decisions are pure functions of the draws;
- functions that can throw in TypeScript (evaluateHand on fewer than
  five cards, destructuring missing hole cards) return Option, with
  none standing for the runtime error.
-/

namespace Poker

/-- The four suits, in the fixed order used by the evaluator's suit
loops (deckUtils.ts SUITS and the local suits arrays). -/
inductive Suit
  | hearts | diamonds | clubs | spades
deriving DecidableEq, Repr, Fintype

/-- The thirteen ranks '2'..'A' (deckUtils.ts RANKS). -/
inductive Rank
  | r2 | r3 | r4 | r5 | r6 | r7 | r8 | r9 | rT | rJ | rQ | rK | rA
deriving DecidableEq, Repr, Fintype

/-- A playing card, equality by (suit, rank) (types: Card). -/
structure Card where
  suit : Suit
  rank : Rank
deriving DecidableEq, Repr, Fintype

/-- Embeds getRankValue (deckUtils.ts): numeric value 2..14 of a rank. -/
def rankValue : Rank → Nat
  | .r2 => 2 | .r3 => 3 | .r4 => 4 | .r5 => 5 | .r6 => 6 | .r7 => 7
  | .r8 => 8 | .r9 => 9 | .rT => 10 | .rJ => 11 | .rQ => 12 | .rK => 13
  | .rA => 14

/-- The one-character display string of a rank, as interpolated into
the evaluator's descriptions. -/
def rankStr : Rank → String
  | .r2 => "2" | .r3 => "3" | .r4 => "4" | .r5 => "5" | .r6 => "6"
  | .r7 => "7" | .r8 => "8" | .r9 => "9" | .rT => "T" | .rJ => "J"
  | .rQ => "Q" | .rK => "K" | .rA => "A"

/-- The suit loop order hearts, diamonds, clubs, spades shared by
deckUtils.createDeck and the evaluator's flush checks. -/
def suitOrder : List Suit := [Suit.hearts, Suit.diamonds, Suit.clubs, Suit.spades]

/-- The rank order '2'..'A' of deckUtils.RANKS. -/
def rankOrder : List Rank :=
  [Rank.r2, Rank.r3, Rank.r4, Rank.r5, Rank.r6, Rank.r7, Rank.r8, Rank.r9,
   Rank.rT, Rank.rJ, Rank.rQ, Rank.rK, Rank.rA]

/-- Embeds createDeck (deckUtils.ts): the 52 cards, suit-major in the
loop order of SUITS and RANKS. -/
def createDeck : List Card :=
  (suitOrder.map (fun s => rankOrder.map (fun r => Card.mk s r))).flatten

/-- Stable insertion step for the descending-by-rank sort: a card is
placed before the first already-sorted card of strictly smaller rank
value, so cards of equal rank keep their input order. -/
def insertByRank (c : Card) : List Card → List Card
  | [] => [c]
  | d :: ds => if rankValue d.rank ≤ rankValue c.rank then c :: d :: ds
               else d :: insertByRank c ds

/-- Embeds sortCardsByRank (deckUtils.ts): JavaScript's stable
Array.prototype.sort with comparator (a, b) => value(b) - value(a),
realised as a stable insertion sort by descending rank value. -/
def sortCardsByRank : List Card → List Card
  | [] => []
  | c :: cs => insertByRank c (sortCardsByRank cs)

/-- First-occurrence deduplication with an accumulator of already-seen
elements: the semantics of JavaScript Array.from(new Set(list)). -/
def dedupFirstAux [DecidableEq α] (seen : List α) : List α → List α
  | [] => []
  | x :: xs => if x ∈ seen then dedupFirstAux seen xs
               else x :: dedupFirstAux (x :: seen) xs

/-- Array.from(new Set(list)): keep the first occurrence of each
element, in input order. -/
def dedupFirst [DecidableEq α] (l : List α) : List α := dedupFirstAux [] l

/-- Embeds getRankCounts (handEvaluator.ts): the JS record maps each
rank occurring in the cards to its number of occurrences, and
Object.entries iterates its keys in first-insertion order, i.e. in
order of first occurrence in the card list. -/
def getRankCounts (cards : List Card) : List (Rank × Nat) :=
  (dedupFirst (cards.map (fun c => c.rank))).map
    (fun r => (r, cards.countP (fun c => decide (c.rank = r))))

/-- The ten hand rankings (types: HandRanking). -/
inductive HandRanking
  | highCard | pair | twoPair | threeOfAKind | straight | flush
  | fullHouse | fourOfAKind | straightFlush | royalFlush
deriving DecidableEq, Repr

/-- Result of a hand evaluation (types: HandEvaluation). -/
structure HandEvaluation where
  ranking : HandRanking
  cards : List Card
  description : String
deriving DecidableEq, Repr

/-- Placeholder card standing for the JavaScript undefined that an
out-of-range index or a failed Array.find would produce; every use in
the evaluator is guarded so that it is never actually selected. -/
def defaultCard : Card := Card.mk Suit.clubs Rank.r2

/-- Consecutivity test of checkStraight's inner loop: adjacent rank
values differ by exactly one (descending). -/
def isConsecutive : List Rank → Bool
  | a :: b :: rest =>
      decide ((rankValue a : Int) - (rankValue b : Int) = 1) && isConsecutive (b :: rest)
  | _ => true

/-- Builds the straight evaluation from the chosen five ranks, picking
for each rank the first card of that rank in the sorted list (the
sorted.find calls of checkStraight). -/
def straightFromRanks (sorted : List Card) (fiveRanks : List Rank) : HandEvaluation :=
  let straightCards :=
    fiveRanks.map (fun r => (sorted.find? (fun c => decide (c.rank = r))).getD defaultCard)
  { ranking := HandRanking.straight
    cards := straightCards
    description := "Straight, " ++ rankStr (straightCards.headD defaultCard).rank ++ " high" }

/-- The loop of checkStraight over window start positions: the first
window of five distinct ranks that is consecutive wins. -/
def findRun (sorted : List Card) : List Rank → Option HandEvaluation
  | [] => none
  | r :: rest =>
      let fiveRanks := (r :: rest).take 5
      if fiveRanks.length = 5 && isConsecutive fiveRanks then
        some (straightFromRanks sorted fiveRanks)
      else findRun sorted rest

/-- The ranks 5,4,3,2,A selected for the wheel by checkStraight. -/
def wheelRanks : List Rank := [Rank.r5, Rank.r4, Rank.r3, Rank.r2, Rank.rA]

/-- Embeds checkStraight (handEvaluator.ts): wheel special case first,
then the first consecutive window of five distinct ranks. -/
def checkStraight (cards : List Card) : Option HandEvaluation :=
  let sorted := sortCardsByRank cards
  let uniqueRanks := dedupFirst (sorted.map (fun c => c.rank))
  if Rank.rA ∈ uniqueRanks ∧ Rank.r2 ∈ uniqueRanks ∧ Rank.r3 ∈ uniqueRanks ∧
      Rank.r4 ∈ uniqueRanks ∧ Rank.r5 ∈ uniqueRanks then
    let straightCards :=
      wheelRanks.map (fun r => (sorted.find? (fun c => decide (c.rank = r))).getD defaultCard)
    some { ranking := HandRanking.straight
           cards := straightCards
           description := "Straight, 5 high (Wheel)" }
  else
    findRun sorted uniqueRanks

/-- Embeds checkFlush (handEvaluator.ts): first suit in loop order
with at least five cards; top five by rank. -/
def checkFlush (cards : List Card) : Option HandEvaluation :=
  suitOrder.findSome? (fun suit =>
    let suitedCards := cards.filter (fun c => decide (c.suit = suit))
    if 5 ≤ suitedCards.length then
      let flushCards := (sortCardsByRank suitedCards).take 5
      some { ranking := HandRanking.flush
             cards := flushCards
             description := "Flush, " ++ rankStr (flushCards.headD defaultCard).rank ++ " high" }
    else none)

/-- Embeds checkStraightFlush (handEvaluator.ts): per suit with at
least five cards, a straight among the suited cards. -/
def checkStraightFlush (cards : List Card) : Option HandEvaluation :=
  suitOrder.findSome? (fun suit =>
    let suitedCards := cards.filter (fun c => decide (c.suit = suit))
    if 5 ≤ suitedCards.length then
      match checkStraight suitedCards with
      | some st =>
          some { ranking := HandRanking.straightFlush
                 cards := st.cards
                 description := "Straight Flush, " ++ rankStr (st.cards.headD defaultCard).rank ++ " high" }
      | none => none
    else none)

/-- Embeds checkRoyalFlush (handEvaluator.ts): a straight flush whose
first selected card is an ace. -/
def checkRoyalFlush (cards : List Card) : Option HandEvaluation :=
  match checkStraightFlush cards with
  | some sf =>
      if (sf.cards.headD defaultCard).rank = Rank.rA then
        some { ranking := HandRanking.royalFlush
               cards := sf.cards
               description := "Royal Flush" }
      else none
  | none => none

/-- Embeds checkFourOfAKind (handEvaluator.ts): first rank entry with
count exactly four, plus the highest remaining kicker. -/
def checkFourOfAKind (cards : List Card) : Option HandEvaluation :=
  match (getRankCounts cards).find? (fun e => decide (e.2 = 4)) with
  | some e =>
      let fourCards := cards.filter (fun c => decide (c.rank = e.1))
      let kicker :=
        (sortCardsByRank (cards.filter (fun c => decide (c.rank ≠ e.1)))).headD defaultCard
      some { ranking := HandRanking.fourOfAKind
             cards := fourCards ++ [kicker]
             description := "Four of a Kind, " ++ rankStr e.1 ++ "s" }
  | none => none

/-- The accumulator loops of checkFullHouse: scan the entries and keep
the rank of highest rank value among those satisfying the predicate
(strictly greater replaces, so the first maximal rank is kept). -/
def maxRankBy (pred : Rank × Nat → Bool) (entries : List (Rank × Nat)) : Option Rank :=
  entries.foldl
    (fun best e =>
      if pred e then
        match best with
        | none => some e.1
        | some b => if rankValue b < rankValue e.1 then some e.1 else some b
      else best)
    none

/-- The rank !== threeRank guard of checkFullHouse's second and third
loops; against a null threeRank the inequality is vacuously true. -/
def neqOpt (r : Rank) : Option Rank → Bool
  | some t => decide (r ≠ t)
  | none => true

/-- The pair-rank selection of checkFullHouse: the second loop keeps
the highest rank different from threeRank with count at least two; if
none was found and a threeRank exists, the third loop takes the first
other rank with count at least three (a second three-of-a-kind serving
as the pair). -/
def selectPairRank (threeRank : Option Rank) (entries : List (Rank × Nat)) : Option Rank :=
  let pairRank0 := maxRankBy (fun e => neqOpt e.1 threeRank && decide (2 ≤ e.2)) entries
  if threeRank.isSome && pairRank0.isNone then
    (entries.find? (fun e => neqOpt e.1 threeRank && decide (3 ≤ e.2))).map (fun e => e.1)
  else pairRank0

/-- Embeds checkFullHouse (handEvaluator.ts): highest rank with count
at least three, then the highest different rank with count at least
two; a second three-of-a-kind may serve as the pair. -/
def checkFullHouse (cards : List Card) : Option HandEvaluation :=
  let rankCounts := getRankCounts cards
  let threeRank := maxRankBy (fun e => decide (3 ≤ e.2)) rankCounts
  let pairRank := selectPairRank threeRank rankCounts
  match threeRank, pairRank with
  | some t, some p =>
      let threeCards := (cards.filter (fun c => decide (c.rank = t))).take 3
      let pairCards := (cards.filter (fun c => decide (c.rank = p))).take 2
      some { ranking := HandRanking.fullHouse
             cards := threeCards ++ pairCards
             description := "Full House, " ++ rankStr t ++ "s over " ++ rankStr p ++ "s" }
  | _, _ => none

/-- Embeds checkThreeOfAKind (handEvaluator.ts): first rank entry with
count exactly three, plus the two highest remaining kickers. -/
def checkThreeOfAKind (cards : List Card) : Option HandEvaluation :=
  match (getRankCounts cards).find? (fun e => decide (e.2 = 3)) with
  | some e =>
      let threeCards := cards.filter (fun c => decide (c.rank = e.1))
      let kickers :=
        (sortCardsByRank (cards.filter (fun c => decide (c.rank ≠ e.1)))).take 2
      some { ranking := HandRanking.threeOfAKind
             cards := threeCards ++ kickers
             description := "Three of a Kind, " ++ rankStr e.1 ++ "s" }
  | none => none

/-- Stable insertion step for the descending rank sort of
checkTwoPair's pairs array (ranks are distinct there, so stability is
irrelevant to the outcome). -/
def insertRankDesc (r : Rank) : List Rank → List Rank
  | [] => [r]
  | x :: xs => if rankValue x ≤ rankValue r then r :: x :: xs else x :: insertRankDesc r xs

/-- JavaScript sort of a rank array by descending rank value. -/
def sortRanksDesc : List Rank → List Rank
  | [] => []
  | r :: rs => insertRankDesc r (sortRanksDesc rs)

/-- Embeds checkTwoPair (handEvaluator.ts): all ranks with count at
least two, the two highest of them, two cards of each, plus the
highest remaining kicker. -/
def checkTwoPair (cards : List Card) : Option HandEvaluation :=
  let pairs := ((getRankCounts cards).filter (fun e => decide (2 ≤ e.2))).map (fun e => e.1)
  match sortRanksDesc pairs with
  | p1 :: p2 :: _ =>
      let pairCards := (cards.filter (fun c => decide (c.rank = p1))).take 2 ++
                       (cards.filter (fun c => decide (c.rank = p2))).take 2
      let kicker :=
        (sortCardsByRank (cards.filter (fun c => decide (c.rank ≠ p1 ∧ c.rank ≠ p2)))).headD defaultCard
      some { ranking := HandRanking.twoPair
             cards := pairCards ++ [kicker]
             description := "Two Pair, " ++ rankStr p1 ++ "s and " ++ rankStr p2 ++ "s" }
  | _ => none

/-- Embeds checkPair (handEvaluator.ts): first rank entry with count
exactly two, plus the three highest remaining kickers. -/
def checkPair (cards : List Card) : Option HandEvaluation :=
  match (getRankCounts cards).find? (fun e => decide (e.2 = 2)) with
  | some e =>
      let pairCards := cards.filter (fun c => decide (c.rank = e.1))
      let kickers :=
        (sortCardsByRank (cards.filter (fun c => decide (c.rank ≠ e.1)))).take 3
      some { ranking := HandRanking.pair
             cards := pairCards ++ kickers
             description := "Pair of " ++ rankStr e.1 ++ "s" }
  | none => none

/-- Embeds checkHighCard (handEvaluator.ts): the five highest cards. -/
def checkHighCard (cards : List Card) : HandEvaluation :=
  let bestFive := (sortCardsByRank cards).take 5
  { ranking := HandRanking.highCard
    cards := bestFive
    description := "High Card, " ++ rankStr (bestFive.headD defaultCard).rank }

/-- Embeds findBestHand (handEvaluator.ts): the top-down cascade of
checks, first match wins. -/
def findBestHand (cards : List Card) : HandEvaluation :=
  match checkRoyalFlush cards with
  | some h => h
  | none =>
  match checkStraightFlush cards with
  | some h => h
  | none =>
  match checkFourOfAKind cards with
  | some h => h
  | none =>
  match checkFullHouse cards with
  | some h => h
  | none =>
  match checkFlush cards with
  | some h => h
  | none =>
  match checkStraight cards with
  | some h => h
  | none =>
  match checkThreeOfAKind cards with
  | some h => h
  | none =>
  match checkTwoPair cards with
  | some h => h
  | none =>
  match checkPair cards with
  | some h => h
  | none => checkHighCard cards

/-- Embeds evaluateHand (handEvaluator.ts); the thrown error on fewer
than five cards is modelled as none. -/
def evaluateHand (cards : List Card) : Option HandEvaluation :=
  if cards.length < 5 then none else some (findBestHand cards)

/-- The rankingValues table of compareHands. -/
def rankingValue : HandRanking → Nat
  | .royalFlush => 10
  | .straightFlush => 9
  | .fourOfAKind => 8
  | .fullHouse => 7
  | .flush => 6
  | .straight => 5
  | .threeOfAKind => 4
  | .twoPair => 3
  | .pair => 2
  | .highCard => 1

/-- Rank value of the card at position i of an evaluation's card list
(the hand.cards access of compareHands' loop). -/
def cardValAt (cs : List Card) (i : Nat) : Nat := rankValue ((cs.getD i defaultCard).rank)

/-- The positional tie-break loop of compareHands over positions 0..4:
first difference in rank value decides. -/
def comparePositions (cs1 cs2 : List Card) : List Nat → Int
  | [] => 0
  | i :: rest =>
      if cardValAt cs2 i < cardValAt cs1 i then 1
      else if cardValAt cs1 i < cardValAt cs2 i then -1
      else comparePositions cs1 cs2 rest

/-- Embeds compareHands (handEvaluator.ts): 1 if hand1 wins, -1 if
hand2 wins, 0 on an exact tie of ranking and all five positions. -/
def compareHands (hand1 hand2 : HandEvaluation) : Int :=
  let value1 := rankingValue hand1.ranking
  let value2 := rankingValue hand2.ranking
  if value2 < value1 then 1
  else if value1 < value2 then -1
  else comparePositions hand1.cards hand2.cards [0, 1, 2, 3, 4]

/-- JavaScript Math.round: round half toward positive infinity. -/
def jsRound (q : ℚ) : ℤ := ⌊q + 1 / 2⌋

/-- Embeds calculatePotOdds (oddsCalculator.ts). For callAmount = 0 it
is 100; otherwise the percentage call / (pot + call), rounded to one
decimal. (Rational division by zero gives 0 where JavaScript would
produce Infinity on pot + call = 0; no claim depends on that corner.) -/
def calculatePotOdds (potSize callAmount : ℚ) : ℚ :=
  if callAmount = 0 then 100
  else (jsRound (callAmount / (potSize + callAmount) * 100 * 10) : ℚ) / 10

/-- Embeds calculateHitProbability (oddsCalculator.ts): rule of 2 for
one card to come, the exact two-card formula rounded to one decimal
for two, and 0 otherwise. -/
def calculateHitProbability (outs : ℕ) (cardsToCome : ℕ) : ℚ :=
  if cardsToCome = 1 then min ((outs : ℚ) * 2) 100
  else if cardsToCome = 2 then
    let exactProb : ℚ := 1 - (47 - (outs : ℚ)) / 47 * ((46 - (outs : ℚ)) / 46)
    (jsRound (exactProb * 100 * 10) : ℚ) / 10
  else 0

/-- Embeds createDummyCards (oddsCalculator.ts): filler clubs of ranks
2,3,4,5,6 cycling. -/
def createDummyCards (count : Nat) : List Card :=
  let dummyRanks : List Rank := [Rank.r2, Rank.r3, Rank.r4, Rank.r5, Rank.r6]
  (List.range count).map (fun i => Card.mk Suit.clubs (dummyRanks.getD (i % 5) Rank.r2))

/-- Placeholder evaluation for the none case of evaluateHand; countOuts
only ever evaluates card lists of at least five cards, so it is never
actually used. -/
def defaultEval : HandEvaluation :=
  { ranking := HandRanking.highCard, cards := [], description := "" }

/-- Embeds countOuts (oddsCalculator.ts): 0 once five community cards
are out; otherwise the number of remaining unseen cards that strictly
improve the current best hand, both hands padded with dummy cards to a
five-card community. (Math.max(0, 5 - n) is truncated subtraction.) -/
def countOuts (heroCards communityCards : List Card) : Nat :=
  if 5 ≤ communityCards.length then 0
  else
    let knownCards := heroCards ++ communityCards
    let availableCards := createDeck.filter (fun card =>
      ! knownCards.any (fun known =>
          decide (known.rank = card.rank) && decide (known.suit = card.suit)))
    let currentHand := (evaluateHand (if 5 ≤ knownCards.length then knownCards
        else knownCards ++ createDummyCards (5 - knownCards.length))).getD defaultEval
    availableCards.countP (fun card =>
      let newCommunity := communityCards ++ [card]
      let newHand := (evaluateHand (heroCards ++ newCommunity ++
          createDummyCards (5 - newCommunity.length))).getD defaultEval
      decide (0 < compareHands newHand currentHand))

/-- A player at the table (types: Player). The optional display style
field is presentation only and not modelled. -/
structure Player where
  position : String
  name : String
  stack : ℚ
  holeCards : List Card
  currentBet : ℚ
  isFolded : Bool
  isAllIn : Bool
deriving DecidableEq, Repr

/-- The JavaScript undefined produced by indexing players out of
range; the engine theorems assume a valid acting index. -/
def defaultPlayer : Player :=
  { position := "", name := "", stack := 0, holeCards := [], currentBet := 0,
    isFolded := false, isAllIn := false }

/-- Embeds calculateMinRaise (pokerLogic.ts). -/
def calculateMinRaise (currentBet lastRaise bigBlind : ℚ) : ℚ :=
  currentBet + max lastRaise bigBlind

/-- Embeds getActivePlayers (pokerLogic.ts): the non-folded players. -/
def getActivePlayers (players : List Player) : List Player :=
  players.filter (fun p => !p.isFolded)

/-- Embeds isHandOver (pokerLogic.ts): at most one non-folded player. -/
def isHandOver (players : List Player) : Bool :=
  decide ((getActivePlayers players).length ≤ 1)

/-- Embeds isBettingRoundComplete (pokerLogic.ts): complete when at
most one non-folded, non-all-in player remains, or all of them have
matched the current bet. -/
def isBettingRoundComplete (players : List Player) (currentBet : ℚ) : Bool :=
  let activePlayers := players.filter (fun p => !p.isFolded && !p.isAllIn)
  if activePlayers.length = 0 then true
  else if activePlayers.length = 1 then true
  else activePlayers.all (fun p => decide (p.currentBet = currentBet))

/-- The while loop of getNextPlayerIndex, with the attempts counter
turned into structural fuel: the loop body runs at most players.length
times, after which the current index is returned even if it still
points at a folded or all-in seat. -/
def nextIndexGo (players : List Player) : Nat → Nat → Nat
  | nextIndex, 0 => nextIndex
  | nextIndex, fuel + 1 =>
      if (players.getD nextIndex defaultPlayer).isFolded ||
          (players.getD nextIndex defaultPlayer).isAllIn then
        nextIndexGo players ((nextIndex + 1) % players.length) fuel
      else nextIndex

/-- Embeds getNextPlayerIndex (pokerLogic.ts). -/
def getNextPlayerIndex (players : List Player) (currentIndex : Nat) : Nat :=
  nextIndexGo players ((currentIndex + 1) % players.length) players.length

/-- Embeds collectBets (pokerLogic.ts): zero every street bet and
return the collected sum. -/
def collectBets (players : List Player) : List Player × ℚ :=
  (players.map (fun p => { p with currentBet := 0 }),
   (players.map (fun p => p.currentBet)).sum)

/-- Blind seat assignment result of getBlindPositions. -/
structure BlindPositions where
  dealer : Nat
  smallBlind : Nat
  bigBlind : Nat
deriving DecidableEq, Repr

/-- Embeds getBlindPositions (pokerLogic.ts): heads-up the dealer is
the small blind, otherwise the two seats after the dealer. -/
def getBlindPositions (playerCount dealerIndex : Nat) : BlindPositions :=
  if playerCount = 2 then
    { dealer := dealerIndex, smallBlind := dealerIndex,
      bigBlind := (dealerIndex + 1) % playerCount }
  else
    { dealer := dealerIndex, smallBlind := (dealerIndex + 1) % playerCount,
      bigBlind := (dealerIndex + 2) % playerCount }

/-- Embeds getFirstPreFlopPlayer (pokerLogic.ts). -/
def getFirstPreFlopPlayer (playerCount bigBlindIndex : Nat) : Nat :=
  (bigBlindIndex + 1) % playerCount

/-- Embeds getFirstPostFlopPlayer (pokerLogic.ts): heads-up the dealer
acts first, otherwise the seat after the dealer — with no skipping of
folded or all-in seats. -/
def getFirstPostFlopPlayer (playerCount dealerIndex : Nat) : Nat :=
  if playerCount = 2 then dealerIndex
  else (dealerIndex + 1) % playerCount

/-- A player action (types: BetAction); amount is the new total street
commitment for raise, and is carried but ignored for all-in. -/
inductive BetAction
  | fold
  | check
  | call (amount : ℚ)
  | raise (amount : ℚ)
  | allIn (amount : ℚ)
deriving DecidableEq, Repr

/-- The betting streets (types: BettingRound). -/
inductive BettingRound
  | preflop | flop | turn | river
deriving DecidableEq, Repr

/-- The game phases (types: GamePhase). -/
inductive GamePhase
  | waiting | dealing | betting | showdown | handComplete | analysisMode
deriving DecidableEq, Repr

/-- The action kinds recorded in the history (types: PlayerAction). -/
inductive ActionKind
  | fold | check | call | raise | allIn
deriving DecidableEq, Repr

/-- The kind tag of an action, as recorded by handlePlayerAction. -/
def actionKindOf : BetAction → ActionKind
  | .fold => ActionKind.fold
  | .check => ActionKind.check
  | .call _ => ActionKind.call
  | .raise _ => ActionKind.raise
  | .allIn _ => ActionKind.allIn

/-- The recorded amount, action.amount || 0 in handlePlayerAction. -/
def amountOf : BetAction → ℚ
  | .fold => 0
  | .check => 0
  | .call a => a
  | .raise a => a
  | .allIn a => a

/-- A history entry (types: Action); the Date.now() timestamp is wall
clock and not modelled. -/
structure ActionRecord where
  player : String
  playerName : String
  action : ActionKind
  amount : ℚ
  bettingRound : BettingRound
deriving DecidableEq, Repr

/-- The per-hand aggregate state (types: GameState), extended with the
deck field embedding the separate useState of the useDeck hook, so a
value of this type models the combined state of useGameState and
useDeck. The hook's deal(count) closure (useCallback over the deck of
the render that created the handler) returns dealCards(deck, count)
and schedules setDeck of the remainder; within one handler every deal
call therefore reads the same deck snapshot and the last setDeck write
wins. -/
structure GameState where
  phase : GamePhase
  bettingRound : BettingRound
  pot : ℚ
  communityCards : List Card
  players : List Player
  currentPlayerIndex : Nat
  dealerButtonIndex : Nat
  smallBlindIndex : Nat
  bigBlindIndex : Nat
  smallBlind : ℚ
  bigBlind : ℚ
  currentBet : ℚ
  minRaise : ℚ
  actionHistory : List ActionRecord
  deck : List Card
deriving DecidableEq, Repr

/-- Result record of processPlayerAction. -/
structure ActionResult where
  updatedPlayer : Player
  potIncrease : ℚ
  newCurrentBet : ℚ
deriving DecidableEq, Repr

/-- Embeds processPlayerAction (pokerLogic.ts): the chip movement of a
single action. Note the raise case caps the target total street
commitment at player.stack (Math.min(action.amount || 0, player.stack))
and isAllIn is set only when the resulting stack is exactly 0. -/
def processPlayerAction (action : BetAction) (player : Player) (gameState : GameState) :
    ActionResult :=
  match action with
  | .fold =>
      { updatedPlayer := { player with isFolded := true },
        potIncrease := 0, newCurrentBet := gameState.currentBet }
  | .check =>
      { updatedPlayer := player, potIncrease := 0, newCurrentBet := gameState.currentBet }
  | .call _ =>
      let callAmount := min (gameState.currentBet - player.currentBet) player.stack
      let p1 := { player with
        stack := player.stack - callAmount,
        currentBet := player.currentBet + callAmount }
      let p2 := if p1.stack = 0 then { p1 with isAllIn := true } else p1
      { updatedPlayer := p2, potIncrease := callAmount, newCurrentBet := gameState.currentBet }
  | .raise amount =>
      let raiseAmount := min amount player.stack
      let totalBet := raiseAmount
      let additionalAmount := totalBet - player.currentBet
      let p1 := { player with
        stack := player.stack - additionalAmount,
        currentBet := totalBet }
      let p2 := if p1.stack = 0 then { p1 with isAllIn := true } else p1
      { updatedPlayer := p2, potIncrease := additionalAmount, newCurrentBet := totalBet }
  | .allIn _ =>
      let allInAmount := player.stack
      let p1 := { player with
        stack := 0,
        currentBet := player.currentBet + allInAmount,
        isAllIn := true }
      let newCB := if gameState.currentBet < p1.currentBet then p1.currentBet
                   else gameState.currentBet
      { updatedPlayer := p1, potIncrease := allInAmount, newCurrentBet := newCB }

/-- Embeds getNextBettingRound (useGameState.ts); none stands for the
string 'complete'. -/
def getNextBettingRound : BettingRound → Option BettingRound
  | .preflop => some BettingRound.flop
  | .flop => some BettingRound.turn
  | .turn => some BettingRound.river
  | .river => none

/-- The SMALL_BLIND constant of useGameState.ts. -/
def SMALL_BLIND : ℚ := 1 / 2

/-- The BIG_BLIND constant of useGameState.ts. -/
def BIG_BLIND : ℚ := 1

/-- Embeds dealCards (deckUtils.ts): the first count cards and the
rest of the deck; the thrown error when more cards are requested than
remain is modelled as none. -/
def dealCards (deck : List Card) (count : Nat) : Option (List Card × List Card) :=
  if deck.length < count then none
  else some (deck.take count, deck.drop count)

/-- The hole-card dealing of startNewHand: the deal(2) calls inside
players.map all run through the same useDeck deal closure, created by
useCallback over the deck value of the render that produced the
handler, so every call reads the same deck snapshot: each player
receives the same first two cards of that snapshot, and a call with
fewer than two cards remaining throws in dealCards (none). -/
def dealHoleCards (deck : List Card) : List Player → Option (List Player)
  | [] => some []
  | p :: ps =>
      match dealCards deck 2, dealHoleCards deck ps with
      | some d, some rest => some ({ p with holeCards := d.1 } :: rest)
      | _, _ => none

/-- The small blind posting of startNewHand: post min(SMALL_BLIND,
stack), marking isAllIn when the post consumes the whole stack. -/
def postSmallBlind (p : Player) : Player :=
  let sbAmount := min SMALL_BLIND p.stack
  { p with
    stack := p.stack - sbAmount,
    currentBet := sbAmount,
    isAllIn := decide (p.stack = sbAmount) }

/-- The big blind posting of startNewHand: post min(BIG_BLIND, stack),
marking isAllIn when the post consumes the whole stack. -/
def postBigBlind (p : Player) : Player :=
  let bbAmount := min BIG_BLIND p.stack
  { p with
    stack := p.stack - bbAmount,
    currentBet := bbAmount,
    isAllIn := decide (p.stack = bbAmount) }

/-- The blind posting map of startNewHand, with the seat index running
along the list; the small blind branch is checked first, as in the
source's early return. -/
def postBlindsFrom (sbIndex bbIndex : Nat) : Nat → List Player → List Player
  | _, [] => []
  | i, p :: ps =>
      (if i = sbIndex then postSmallBlind p
       else if i = bbIndex then postBigBlind p
       else p) :: postBlindsFrom sbIndex bbIndex (i + 1) ps

/-- The per-hand player reset of startNewHand. -/
def resetPlayer (p : Player) : Player :=
  { p with holeCards := [], currentBet := 0, isFolded := false, isAllIn := false }

/-- Embeds startNewHand (useGameState.ts) together with its useDeck
interplay. shuffleNewDeck enqueues setDeck(createShuffledDeck()) first,
then every deal(2) enqueues setDeck of the remainder computed from the
same stale snapshot, and the last write wins: with at least one player
the cards come from the pre-existing deck and the resulting deck is
that snapshot minus two cards, while the freshly shuffled deck
(freshDeck, a Math.random product) is discarded — it survives only in
the playerless corner case where no deal runs. The phase = waiting
branch only rewrites AI display names and styles from the session AI
registry and is skipped as presentation. -/
def startHand (freshDeck : List Card) (prev : GameState) : Option GameState :=
  let newDealerIndex := (prev.dealerButtonIndex + 1) % prev.players.length
  let blinds := getBlindPositions prev.players.length newDealerIndex
  let resetPlayers := prev.players.map resetPlayer
  match dealHoleCards prev.deck resetPlayers with
  | none => none
  | some playersWithCards =>
      let updatedPlayers := postBlindsFrom blinds.smallBlind blinds.bigBlind 0 playersWithCards
      let firstPlayer := getFirstPreFlopPlayer updatedPlayers.length blinds.bigBlind
      some { prev with
        phase := GamePhase.betting
        bettingRound := BettingRound.preflop
        pot := 0
        communityCards := []
        players := updatedPlayers
        currentPlayerIndex := firstPlayer
        dealerButtonIndex := newDealerIndex
        smallBlindIndex := blinds.smallBlind
        bigBlindIndex := blinds.bigBlind
        currentBet := BIG_BLIND
        minRaise := BIG_BLIND * 2
        actionHistory := []
        deck := if prev.players = [] then freshDeck else prev.deck.drop 2 }

/-- Embeds handlePlayerAction (useGameState.ts), the single mutation
path for actions: process the action, record it, then either end the
hand, complete the street (collect bets, deal community cards, move to
the first post-flop seat) or pass the turn on. List.set models the
players.map replacement at currentPlayerIndex. A street advance makes
exactly one deal call (deal(3) replacing the community cards for the
flop, deal(1) appended for the turn and river); dealCards' thrown
error on an exhausted deck propagates as none. -/
def applyAction (action : BetAction) (prev : GameState) : Option GameState :=
  let currentPlayer := prev.players.getD prev.currentPlayerIndex defaultPlayer
  let res := processPlayerAction action currentPlayer prev
  let updatedPlayers := prev.players.set prev.currentPlayerIndex res.updatedPlayer
  let actionRecord : ActionRecord :=
    { player := currentPlayer.position, playerName := currentPlayer.name,
      action := actionKindOf action, amount := amountOf action,
      bettingRound := prev.bettingRound }
  let newPot := prev.pot + res.potIncrease
  let newMinRaise :=
    calculateMinRaise res.newCurrentBet (res.newCurrentBet - prev.currentBet) BIG_BLIND
  if isHandOver updatedPlayers then
    some { prev with
      phase := GamePhase.showdown,
      players := updatedPlayers,
      pot := newPot,
      currentBet := res.newCurrentBet,
      minRaise := newMinRaise,
      actionHistory := prev.actionHistory ++ [actionRecord] }
  else if isBettingRoundComplete updatedPlayers res.newCurrentBet then
    let collected := collectBets updatedPlayers
    let totalPot := newPot + collected.2
    match getNextBettingRound prev.bettingRound with
    | none =>
        some { prev with
          phase := GamePhase.showdown,
          players := collected.1,
          pot := totalPot,
          currentBet := 0,
          actionHistory := prev.actionHistory ++ [actionRecord] }
    | some nextRound =>
        match dealCards prev.deck (if nextRound = BettingRound.flop then 3 else 1) with
        | none => none
        | some dealt =>
            let newCommunityCards :=
              if nextRound = BettingRound.flop then dealt.1
              else prev.communityCards ++ dealt.1
            let firstPlayer := getFirstPostFlopPlayer collected.1.length prev.dealerButtonIndex
            some { prev with
              bettingRound := nextRound,
              communityCards := newCommunityCards,
              players := collected.1,
              pot := totalPot,
              currentBet := 0,
              minRaise := BIG_BLIND,
              currentPlayerIndex := firstPlayer,
              actionHistory := prev.actionHistory ++ [actionRecord],
              deck := dealt.2 }
  else
    let nextPlayerIndex := getNextPlayerIndex updatedPlayers prev.currentPlayerIndex
    some { prev with
      players := updatedPlayers,
      pot := newPot,
      currentBet := res.newCurrentBet,
      minRaise := newMinRaise,
      currentPlayerIndex := nextPlayerIndex,
      actionHistory := prev.actionHistory ++ [actionRecord] }

/-- Sum of all players' current street bets of a state; the claimed
invariant reads pot + this sum. -/
def betSum (gs : GameState) : ℚ := (gs.players.map (fun p => p.currentBet)).sum

/-- Sum of all players' stacks of a state; total chips wagered this
hand is the decrease of this sum since the hand started. -/
def stackSum (gs : GameState) : ℚ := (gs.players.map (fun p => p.stack)).sum

/-- An AI style profile (types: PlayerStyleConfig); the display name
and style id are presentation only. -/
structure PlayerStyleConfig where
  vpip : ℚ
  pfr : ℚ
  aggression : ℚ
  bluffFrequency : ℚ
deriving DecidableEq, Repr

/-- One rational in [0,1) per Math.random() call site of AIOpponent;
each site is evaluated at most once per decision, so a fixed record of
draws covers every execution. -/
structure RandomDraws where
  aggroRoll : ℚ
  bluffRoll : ℚ
  occasionalRoll : ℚ
  bluffFreqRoll : ℚ
deriving DecidableEq, Repr

/-- JavaScript Math.floor. -/
def jsFloor (q : ℚ) : ℤ := ⌊q⌋

/-- Embeds evaluatePreFlopHand (handStrength.ts), score component: the
static 0-100 pre-flop strength table. The categorical strength field
is not consumed by the AI and is omitted. -/
def evaluatePreFlopHandScore (card1 card2 : Card) : ℚ :=
  let rank1 := rankValue card1.rank
  let rank2 := rankValue card2.rank
  let suited := decide (card1.suit = card2.suit)
  let isPair := decide (rank1 = rank2)
  let highCard := max rank1 rank2
  let lowCard := min rank1 rank2
  let gap := highCard - lowCard
  if isPair then
    if 14 ≤ rank1 then 95
    else if 13 ≤ rank1 then 90
    else if 12 ≤ rank1 then 85
    else if 11 ≤ rank1 then 80
    else if 10 ≤ rank1 then 75
    else if 7 ≤ rank1 then 65
    else 50 + (rank1 : ℚ) * 2
  else if highCard = 14 then
    if 13 ≤ lowCard then (if suited then 88 else 82)
    else if 12 ≤ lowCard then (if suited then 78 else 72)
    else if 11 ≤ lowCard then (if suited then 73 else 67)
    else if 10 ≤ lowCard then (if suited then 68 else 62)
    else if 7 ≤ lowCard then (if suited then 55 else 45)
    else (if suited then 45 else 30)
  else if highCard = 13 then
    if 12 ≤ lowCard then (if suited then 76 else 70)
    else if 11 ≤ lowCard then (if suited then 71 else 65)
    else if 10 ≤ lowCard then (if suited then 66 else 58)
    else if 9 ≤ lowCard then (if suited then 58 else 48)
    else (if suited then 48 else 35)
  else if highCard = 12 then
    if 11 ≤ lowCard then (if suited then 69 else 63)
    else if 10 ≤ lowCard then (if suited then 64 else 56)
    else if 9 ≤ lowCard then (if suited then 56 else 46)
    else (if suited then 46 else 33)
  else if highCard = 11 then
    if 10 ≤ lowCard then (if suited then 62 else 54)
    else if 9 ≤ lowCard then (if suited then 54 else 44)
    else (if suited then 44 else 31)
  else if gap = 0 then
    (if suited then 40 + (highCard : ℚ) * 2 else 30 + (highCard : ℚ) * 2)
  else if gap = 1 then
    (if suited then 35 + (highCard : ℚ) else 25 + (highCard : ℚ))
  else if suited then 30 + (highCard : ℚ)
  else 15 + (highCard : ℚ)

/-- The position categories of handStrength.ts. -/
inductive PositionCategory
  | early | middle | late | button
deriving DecidableEq, Repr

/-- Embeds getPositionCategory (handStrength.ts). Indices are integers
because AIOpponent passes a findIndex result (-1 when absent); the %
is JavaScript's truncated remainder. -/
def getPositionCategory (playerIndex dealerIndex totalPlayers : Int) : PositionCategory :=
  let seatsAfterDealer := Int.tmod (playerIndex - dealerIndex + totalPlayers) totalPlayers
  if seatsAfterDealer = 0 then PositionCategory.button
  else if seatsAfterDealer = 1 ∨ seatsAfterDealer = 2 then PositionCategory.early
  else if totalPlayers = 4 then
    (if seatsAfterDealer = 3 then PositionCategory.late else PositionCategory.middle)
  else if seatsAfterDealer ≤ 3 then PositionCategory.early
  else if seatsAfterDealer ≤ 5 then PositionCategory.middle
  else PositionCategory.late

/-- Embeds shouldPlayHand (handStrength.ts): play when the adjusted
score reaches (100 - vpip) * 0.95. -/
def shouldPlayHand (handScore vpip positionAdjustment : ℚ) : Bool :=
  decide ((100 - vpip) * (95 / 100) ≤ handScore * positionAdjustment)

/-- Embeds shouldRaiseHand (handStrength.ts). -/
def shouldRaiseHand (handScore pfr positionAdjustment : ℚ) : Bool :=
  decide ((100 - pfr) * (95 / 100) ≤ handScore * positionAdjustment)

/-- Embeds AIOpponent.getPositionMultiplier. -/
def getPositionMultiplier : PositionCategory → ℚ
  | .early => 8 / 10
  | .middle => 9 / 10
  | .late => 11 / 10
  | .button => 12 / 10

/-- Embeds AIOpponent.shouldBeAggressive: the style aggression coin
flip Math.random() > (10 - aggression) / 10. -/
def shouldBeAggressive (cfg : PlayerStyleConfig) (draws : RandomDraws) : Bool :=
  decide ((10 - cfg.aggression) / 10 < draws.aggroRoll)

/-- Embeds AIOpponent.hasThreeToFlush: three or more board cards of
one suit (Object.values(suitCounts).some(c => c >= 3)). -/
def hasThreeToFlush (cards : List Card) : Bool :=
  suitOrder.any (fun s => decide (3 ≤ cards.countP (fun c => decide (c.suit = s))))

/-- Ascending stable insertion for the numeric sort of
hasThreeToStraight. -/
def insertAsc (v : Int) : List Int → List Int
  | [] => [v]
  | x :: xs => if v ≤ x then v :: x :: xs else x :: insertAsc v xs

/-- JavaScript sort((a, b) => a - b) of an integer array. -/
def sortIntsAsc : List Int → List Int
  | [] => []
  | v :: vs => insertAsc v (sortIntsAsc vs)

/-- The window scan of hasThreeToStraight: three cards within a 5-rank
span among the ascending rank values. -/
def hasRun3 : List Int → Bool
  | a :: b :: c :: rest => decide (c - a ≤ 4) || hasRun3 (b :: c :: rest)
  | _ => false

/-- Embeds AIOpponent.hasThreeToStraight. -/
def hasThreeToStraight (cards : List Card) : Bool :=
  if cards.length < 3 then false
  else hasRun3 (sortIntsAsc (cards.map (fun c => (rankValue c.rank : Int))))

/-- Embeds AIOpponent.shouldBluff: bluff roll against bluffFrequency,
elevated by 0.2 on a scary board. -/
def shouldBluff (cfg : PlayerStyleConfig) (draws : RandomDraws) (communityCards : List Card) :
    Bool :=
  let bluffBonus : ℚ :=
    if hasThreeToFlush communityCards || hasThreeToStraight communityCards then 2 / 10 else 0
  decide (draws.bluffRoll < cfg.bluffFrequency + bluffBonus)

/-- Embeds AIOpponent.estimateHandStrength: the fixed ranking-to-
percentage table. -/
def estimateHandStrength : HandRanking → ℚ
  | .royalFlush => 100
  | .straightFlush => 95
  | .fourOfAKind => 90
  | .fullHouse => 85
  | .flush => 75
  | .straight => 70
  | .threeOfAKind => 60
  | .twoPair => 50
  | .pair => 35
  | .highCard => 20

/-- Embeds AIOpponent.determineRaiseSize: a pot multiplier
interpolated by aggression within a strength band, floored, and capped
at the player's stack. -/
def determineRaiseSize (cfg : PlayerStyleConfig) (player : Player) (pot handStrength : ℚ) :
    BetAction :=
  let aggression := cfg.aggression
  let raiseMultiplier : ℚ :=
    if 85 ≤ handStrength then 75 / 100 + aggression / 10 * (15 / 10)
    else if 70 ≤ handStrength then 5 / 10 + aggression / 10 * 1
    else 33 / 100 + aggression / 10 * (67 / 100)
  let raiseAmount := (jsFloor (pot * raiseMultiplier) : ℚ)
  let cappedRaise := min raiseAmount player.stack
  BetAction.raise cappedRaise

/-- Embeds AIOpponent.shouldCall. -/
def shouldCall (cfg : PlayerStyleConfig) (callAmount pot handStrength : ℚ) : Bool :=
  let potOdds := calculatePotOdds pot callAmount
  let callThreshold := 100 - cfg.vpip
  decide (callThreshold ≤ handStrength) || decide (potOdds < handStrength)

/-- Embeds AIOpponent.decidePreFlop. The hole-card destructuring
throws on fewer than two cards: modelled as none. -/
def decidePreFlop (cfg : PlayerStyleConfig) (draws : RandomDraws) (player : Player)
    (currentBet pot : ℚ) (playerIndex dealerIndex : Int) : Option BetAction :=
  match player.holeCards with
  | card1 :: card2 :: _ =>
      let score := evaluatePreFlopHandScore card1 card2
      let position := getPositionCategory playerIndex dealerIndex 4
      let positionMultiplier := getPositionMultiplier position
      let adjustedScore := score * positionMultiplier
      if !shouldPlayHand score cfg.vpip positionMultiplier then some BetAction.fold
      else
        let shouldRaise := shouldRaiseHand score cfg.pfr positionMultiplier
        let callAmount := currentBet - player.currentBet
        if currentBet = player.currentBet then
          if shouldRaise && shouldBeAggressive cfg draws then
            some (determineRaiseSize cfg player pot adjustedScore)
          else some BetAction.check
        else if shouldRaise && decide (75 ≤ adjustedScore) then
          some (determineRaiseSize cfg player pot adjustedScore)
        else if decide (50 ≤ adjustedScore) || shouldCall cfg callAmount pot adjustedScore then
          some (BetAction.call callAmount)
        else some BetAction.fold
  | _ => none

/-- Embeds AIOpponent.decidePostFlop; evaluateHand's possible throw on
fewer than five cards is propagated as none. -/
def decidePostFlop (cfg : PlayerStyleConfig) (draws : RandomDraws) (player : Player)
    (currentBet pot : ℚ) (communityCards : List Card) : Option BetAction :=
  match evaluateHand (player.holeCards ++ communityCards) with
  | none => none
  | some myHand =>
      let handStrength := estimateHandStrength myHand.ranking
      let callAmount := currentBet - player.currentBet
      let potOdds := calculatePotOdds pot callAmount
      let estimatedEquity := handStrength
      let bluff := shouldBluff cfg draws communityCards
      if currentBet = player.currentBet then
        if decide (60 ≤ handStrength) && shouldBeAggressive cfg draws then
          some (determineRaiseSize cfg player pot handStrength)
        else if bluff && decide (6 ≤ cfg.aggression) then
          some (BetAction.raise ((jsFloor (pot * (5 / 10))) : ℚ))
        else some BetAction.check
      else if decide (75 ≤ handStrength) then
        if shouldBeAggressive cfg draws then
          some (determineRaiseSize cfg player pot handStrength)
        else some (BetAction.call callAmount)
      else if decide (50 ≤ handStrength) then
        if shouldBeAggressive cfg draws && decide (draws.occasionalRoll < 3 / 10) then
          some (determineRaiseSize cfg player pot handStrength)
        else some (BetAction.call callAmount)
      else if decide (potOdds < estimatedEquity) || bluff then
        if bluff && decide (draws.bluffFreqRoll < cfg.bluffFrequency) then
          some (determineRaiseSize cfg player pot 40)
        else some (BetAction.call callAmount)
      else some BetAction.fold

/-- JavaScript Array.findIndex over the players, -1 when absent. -/
def jsFindIndex (players : List Player) (position : String) : Int :=
  match players.findIdx? (fun p => decide (p.position = position)) with
  | some i => (i : Int)
  | none => -1

/-- Embeds AIOpponent.decide: pre-flop or post-flop decision from the
style profile, the player and a state snapshot, given the draws. -/
def aiDecide (cfg : PlayerStyleConfig) (draws : RandomDraws) (player : Player)
    (gameState : GameState) : Option BetAction :=
  let playerIndex := jsFindIndex gameState.players player.position
  let dealerIndex := (gameState.dealerButtonIndex : Int)
  if gameState.bettingRound = BettingRound.preflop then
    decidePreFlop cfg draws player gameState.currentBet gameState.pot playerIndex dealerIndex
  else
    decidePostFlop cfg draws player gameState.currentBet gameState.pot gameState.communityCards

/-- A fresh player seat with the given position label and stack. -/
def seat (pos : String) (stack : ℚ) : Player :=
  { position := pos
    name := pos
    stack := stack
    holeCards := []
    currentBet := 0
    isFolded := false
    isAllIn := false }

/-- Pre-hand state with four 100-chip players and the dealer button on
seat 3, so that startHand rotates the button to seat 0 (the 4-player,
blinds 0.5/1, dealer-seat-0 end-to-end setup). -/
def fourSeatPrev : GameState :=
  { phase := GamePhase.betting
    bettingRound := BettingRound.preflop
    pot := 0
    communityCards := []
    players := [seat "hero" 100, seat "opponent1" 100, seat "opponent2" 100,
                seat "opponent3" 100]
    currentPlayerIndex := 0
    dealerButtonIndex := 3
    smallBlindIndex := 0
    bigBlindIndex := 1
    smallBlind := SMALL_BLIND
    bigBlind := BIG_BLIND
    currentBet := 0
    minRaise := 2
    actionHistory := []
    deck := createDeck }

/-- The hand of the end-to-end setup after blinds are posted: dealer 0,
small blind seat 1 (0.5), big blind seat 2 (1), seat 3 to act (the
52-card deck makes the hole-card deal succeed, so the getD default is
never taken). -/
def fourSeatHand : GameState := (startHand createDeck fourSeatPrev).getD fourSeatPrev

/-- A mid-street state for the street-transition claims: preflop,
dealer 0, seat 1 already folded, seats 0 and 2 have matched the bet of
1, seat 3 (to act) still owes 0.5. -/
def foldedSbState : GameState :=
  { phase := GamePhase.betting
    bettingRound := BettingRound.preflop
    pot := 0
    communityCards := []
    players := [{ seat "hero" 99 with currentBet := 1 },
                { seat "opponent1" 100 with isFolded := true },
                { seat "opponent2" 99 with currentBet := 1 },
                { seat "opponent3" (199 / 2) with currentBet := 1 / 2 }]
    currentPlayerIndex := 3
    dealerButtonIndex := 0
    smallBlindIndex := 1
    bigBlindIndex := 2
    smallBlind := SMALL_BLIND
    bigBlind := BIG_BLIND
    currentBet := 1
    minRaise := 2
    actionHistory := []
    deck := createDeck }

/-- Style profile used in the AI raise-legality scenario: aggression 6
and bluff frequency one half. -/
def bluffyStyle : PlayerStyleConfig :=
  { vpip := 50, pfr := 40, aggression := 6, bluffFrequency := 1 / 2 }

/-- Draws forcing the bluff branch: the bluff roll 0 is below the bluff
frequency, the aggression roll 0 fails the aggression coin flip. -/
def bluffyDraws : RandomDraws :=
  { aggroRoll := 0, bluffRoll := 0, occasionalRoll := 1, bluffFreqRoll := 1 }

/-- A short-stacked opponent holding a weak hand. -/
def shortStack : Player :=
  { position := "opponent1"
    name := "opponent1"
    stack := 3
    holeCards := [Card.mk Suit.hearts Rank.r2, Card.mk Suit.clubs Rank.r7]
    currentBet := 0
    isFolded := false
    isAllIn := false }

/-- Post-flop snapshot with a 100-chip pot, no outstanding bet and a
dry board where the short stack's hand is only high card. -/
def bigPotFlop : GameState :=
  { phase := GamePhase.betting
    bettingRound := BettingRound.flop
    pot := 100
    communityCards := [Card.mk Suit.diamonds Rank.r9, Card.mk Suit.spades Rank.rJ,
                       Card.mk Suit.hearts Rank.r4]
    players := [seat "hero" 100, shortStack]
    currentPlayerIndex := 1
    dealerButtonIndex := 0
    smallBlindIndex := 1
    bigBlindIndex := 0
    smallBlind := SMALL_BLIND
    bigBlind := BIG_BLIND
    currentBet := 0
    minRaise := 1
    actionHistory := []
    deck := [] }

/-- Maximally aggressive style used for the raise-bound witness. -/
def aggroStyle : PlayerStyleConfig :=
  { vpip := 100, pfr := 100, aggression := 10, bluffFrequency := 0 }

/-- Draws passing the aggression coin flip and failing every bluff. -/
def aggroDraws : RandomDraws :=
  { aggroRoll := 1, bluffRoll := 1, occasionalRoll := 1, bluffFreqRoll := 1 }

/-- An opponent holding pocket aces before the flop. -/
def acesPlayer : Player :=
  { position := "opponent2"
    name := "opponent2"
    stack := 100
    holeCards := [Card.mk Suit.hearts Rank.rA, Card.mk Suit.clubs Rank.rA]
    currentBet := 0
    isFolded := false
    isAllIn := false }

/-- Pre-flop snapshot with no outstanding bet for the pocket-aces
opponent in seat 1 (dealer seat 0). -/
def acesPreFlop : GameState :=
  { phase := GamePhase.betting
    bettingRound := BettingRound.preflop
    pot := 10
    communityCards := []
    players := [seat "hero" 100, acesPlayer]
    currentPlayerIndex := 1
    dealerButtonIndex := 0
    smallBlindIndex := 1
    bigBlindIndex := 0
    smallBlind := SMALL_BLIND
    bigBlind := BIG_BLIND
    currentBet := 0
    minRaise := 2
    actionHistory := []
    deck := [] }

/-- A five-card wheel with mixed suits, used as concrete witness input
for the wheel claims. -/
def wheelFive : List Card :=
  [Card.mk Suit.hearts Rank.rA, Card.mk Suit.clubs Rank.r2, Card.mk Suit.diamonds Rank.r3,
   Card.mk Suit.spades Rank.r4, Card.mk Suit.hearts Rank.r5]

/-- Six cards containing a wheel and a pair of fives, heart five
first. -/
def wheelSixA : List Card :=
  [Card.mk Suit.hearts Rank.r5, Card.mk Suit.diamonds Rank.r5, Card.mk Suit.clubs Rank.rA,
   Card.mk Suit.diamonds Rank.r2, Card.mk Suit.clubs Rank.r3, Card.mk Suit.spades Rank.r4]

/-- The same six cards with the two fives swapped. -/
def wheelSixB : List Card :=
  [Card.mk Suit.diamonds Rank.r5, Card.mk Suit.hearts Rank.r5, Card.mk Suit.clubs Rank.rA,
   Card.mk Suit.diamonds Rank.r2, Card.mk Suit.clubs Rank.r3, Card.mk Suit.spades Rank.r4]

/-- A 6-high straight evaluation input. -/
def sixHighStraight : List Card :=
  [Card.mk Suit.hearts Rank.r6, Card.mk Suit.clubs Rank.r5, Card.mk Suit.diamonds Rank.r4,
   Card.mk Suit.spades Rank.r3, Card.mk Suit.hearts Rank.r2]

/-- A player about to raise while already committed: stack 5 with 3
already in front. -/
def raisePlayer : Player :=
  { position := "opponent1"
    name := "opponent1"
    stack := 5
    holeCards := []
    currentBet := 3
    isFolded := false
    isAllIn := false }

/-- A state with an outstanding bet of 3 and the committed short stack
to act. -/
def midRaiseState : GameState :=
  { fourSeatPrev with
    players := [seat "hero" 100, raisePlayer]
    currentPlayerIndex := 1
    currentBet := 3 }

/-- Three-handed state where everyone has already matched the bet of 1
and seat 0 is to act: a fold by seat 0 completes the street. -/
def matchedThreePrev : GameState :=
  { fourSeatPrev with
    players := [{ seat "hero" 99 with currentBet := 1 },
                { seat "opponent1" 99 with currentBet := 1 },
                { seat "opponent2" 99 with currentBet := 1 }]
    currentPlayerIndex := 0
    currentBet := 1
    deck := createDeck }

/-- Hero hole cards used as witness input for the outs claims. -/
def outsHero : List Card :=
  [Card.mk Suit.hearts Rank.rA, Card.mk Suit.hearts Rank.rK]

/-- A three-card community board. -/
def outsFlopBoard : List Card :=
  [Card.mk Suit.hearts Rank.rQ, Card.mk Suit.hearts Rank.rJ, Card.mk Suit.diamonds Rank.r2]

/-- A complete five-card community board. -/
def outsRiverBoard : List Card :=
  [Card.mk Suit.clubs Rank.r2, Card.mk Suit.clubs Rank.r3, Card.mk Suit.diamonds Rank.r4,
   Card.mk Suit.spades Rank.r5, Card.mk Suit.diamonds Rank.r6]

/-- The (ranking, description) component pair of an evaluation: the
part of evaluateHand's result that is invariant under reordering of
the input cards. -/
def evalTag (h : HandEvaluation) : HandRanking × String := (h.ranking, h.description)

-- Theorems: helper lemmas first, then one theorem per claim (with its
-- witness or counterexample where required).

theorem dealHoleCards_ok (deck : List Card) (h2 : 2 ≤ deck.length) (ps : List Player) :
    dealHoleCards deck ps =
      some (ps.map (fun p => { p with holeCards := deck.take 2 })) := by
  have hdc : dealCards deck 2 = some (deck.take 2, deck.drop 2) := by
    rw [dealCards, if_neg (by omega)]
  induction ps with
  | nil => rfl
  | cons p ps ih =>
      rw [dealHoleCards, hdc, ih]
      rfl

theorem postBlindsFrom_length (sb bb j : Nat) (ps : List Player) :
    (postBlindsFrom sb bb j ps).length = ps.length := by
  induction ps generalizing j with
  | nil => rfl
  | cons p ps ih => simp [postBlindsFrom, ih]

theorem postBlindsFrom_getElem? (sb bb j : Nat) (ps : List Player) (i : Nat) :
    (postBlindsFrom sb bb j ps)[i]? =
      (ps[i]?).map (fun p =>
        if j + i = sb then postSmallBlind p
        else if j + i = bb then postBigBlind p else p) := by
  induction ps generalizing j i with
  | nil => simp [postBlindsFrom]
  | cons p ps ih =>
      cases i with
      | zero => simp [postBlindsFrom]
      | succ n =>
          have h : j + Nat.succ n = (j + 1) + n := by omega
          simp [postBlindsFrom, ih (j + 1) n, h]

theorem succ_mod_ne (a N : Nat) (h : 2 < N) : (a + 1) % N ≠ a % N := by
  have h0 : 0 < N := by omega
  have h1 : (a + 1) % N = (a % N + 1) % N := by
    conv_lhs => rw [Nat.add_mod]
    rw [Nat.mod_eq_of_lt (show 1 < N by omega)]
  have hr : a % N < N := Nat.mod_lt a h0
  rcases Nat.lt_or_ge (a % N + 1) N with hlt | hge
  · rw [h1, Nat.mod_eq_of_lt hlt]; omega
  · have heq : a % N + 1 = N := by omega
    rw [h1, heq, Nat.mod_self]; omega

/-- C1: chip conservation fails on the code. Starting the 4-player,
blinds 0.5/1 hand and applying one call of 1 yields pot plus the sum
of street bets equal to 3.5, while the players' stacks only decreased
by 2.5: handlePlayerAction adds each action's chips to the pot at
action time and collectBets adds all street bets again on street
completion, so the claimed invariant pot + sum of currentBet = total
chips wagered is violated after the very first call. -/
theorem c1_pot_conservation_fails :
    (applyAction (BetAction.call 1) fourSeatHand).map (fun t => t.pot + betSum t) =
      some (7 / 2) ∧
    (applyAction (BetAction.call 1) fourSeatHand).map
        (fun t => stackSum fourSeatPrev - stackSum t) = some (5 / 2) ∧
    (7 : ℚ) / 2 ≠ 5 / 2 := by
  norm_num [fourSeatHand, fourSeatPrev, startHand, applyAction, processPlayerAction,
    dealHoleCards, dealCards, resetPlayer, getBlindPositions, getFirstPreFlopPlayer,
    postBlindsFrom, postSmallBlind, postBigBlind, collectBets, betSum, stackSum, isHandOver,
    getActivePlayers, isBettingRoundComplete, getNextPlayerIndex, nextIndexGo,
    calculateMinRaise, getNextBettingRound, seat, SMALL_BLIND, BIG_BLIND, defaultPlayer,
    createDeck, suitOrder, rankOrder]

/-- C2 counterexample: a raise to 10 by a player with stack 5 and 3
already committed results in a total street commitment of 5, not
min(10, 5 + 3) = 8 as claimed — the code caps the raise total at
player.stack, not at player.stack + player.currentBet. -/
theorem c2_raise_cap_counterexample :
    (processPlayerAction (BetAction.raise 10) raisePlayer
        midRaiseState).updatedPlayer.currentBet = 5 ∧
    min (10 : ℚ) (raisePlayer.stack + raisePlayer.currentBet) = 8 ∧
    (5 : ℚ) ≠ 8 := by
  norm_num [processPlayerAction, raisePlayer, midRaiseState, fourSeatPrev, seat]

/-- C2 as amended: a raise action sets the acting player's total
street commitment to min(action.amount, player.stack) — capped at the
stack alone, not stack + currentBet — moves exactly that total minus
the previous currentBet from the stack, reports it as the pot
increase, makes it the new table currentBet, sets isAllIn exactly when
the stack reaches 0 (for a player not already all-in), and the new
minRaise is newCurrentBet + max(newCurrentBet - previous table bet,
big blind), as recomputed by handlePlayerAction both when passing the
turn on and when the hand ends. -/
theorem c2_raise_semantics (amount : ℚ) (s : GameState)
    (hpl : (s.players.getD s.currentPlayerIndex defaultPlayer).isAllIn = false) :
    (processPlayerAction (BetAction.raise amount)
        (s.players.getD s.currentPlayerIndex defaultPlayer) s).updatedPlayer.currentBet =
      min amount (s.players.getD s.currentPlayerIndex defaultPlayer).stack ∧
    (processPlayerAction (BetAction.raise amount)
        (s.players.getD s.currentPlayerIndex defaultPlayer) s).updatedPlayer.stack =
      (s.players.getD s.currentPlayerIndex defaultPlayer).stack -
        (min amount (s.players.getD s.currentPlayerIndex defaultPlayer).stack -
          (s.players.getD s.currentPlayerIndex defaultPlayer).currentBet) ∧
    (processPlayerAction (BetAction.raise amount)
        (s.players.getD s.currentPlayerIndex defaultPlayer) s).potIncrease =
      min amount (s.players.getD s.currentPlayerIndex defaultPlayer).stack -
        (s.players.getD s.currentPlayerIndex defaultPlayer).currentBet ∧
    (processPlayerAction (BetAction.raise amount)
        (s.players.getD s.currentPlayerIndex defaultPlayer) s).newCurrentBet =
      min amount (s.players.getD s.currentPlayerIndex defaultPlayer).stack ∧
    ((processPlayerAction (BetAction.raise amount)
        (s.players.getD s.currentPlayerIndex defaultPlayer) s).updatedPlayer.isAllIn = true ↔
      (processPlayerAction (BetAction.raise amount)
        (s.players.getD s.currentPlayerIndex defaultPlayer) s).updatedPlayer.stack = 0) ∧
    calculateMinRaise
        (processPlayerAction (BetAction.raise amount)
          (s.players.getD s.currentPlayerIndex defaultPlayer) s).newCurrentBet
        ((processPlayerAction (BetAction.raise amount)
          (s.players.getD s.currentPlayerIndex defaultPlayer) s).newCurrentBet - s.currentBet)
        BIG_BLIND =
      min amount (s.players.getD s.currentPlayerIndex defaultPlayer).stack +
        max (min amount (s.players.getD s.currentPlayerIndex defaultPlayer).stack - s.currentBet)
          BIG_BLIND ∧
    (isBettingRoundComplete
        (s.players.set s.currentPlayerIndex
          (processPlayerAction (BetAction.raise amount)
            (s.players.getD s.currentPlayerIndex defaultPlayer) s).updatedPlayer)
        (processPlayerAction (BetAction.raise amount)
          (s.players.getD s.currentPlayerIndex defaultPlayer) s).newCurrentBet = false →
      (applyAction (BetAction.raise amount) s).map (fun t => t.minRaise) =
        some (min amount (s.players.getD s.currentPlayerIndex defaultPlayer).stack +
          max (min amount (s.players.getD s.currentPlayerIndex defaultPlayer).stack -
            s.currentBet) BIG_BLIND) ∧
      (isHandOver (s.players.set s.currentPlayerIndex
          (processPlayerAction (BetAction.raise amount)
            (s.players.getD s.currentPlayerIndex defaultPlayer) s).updatedPlayer) = false →
        (applyAction (BetAction.raise amount) s).map (fun t => t.currentBet) =
          some (min amount (s.players.getD s.currentPlayerIndex defaultPlayer).stack))) := by
  set pl := s.players.getD s.currentPlayerIndex defaultPlayer with hpldef
  refine ⟨?_, ?_, ?_, ?_, ?_, ?_, ?_⟩
  · simp [processPlayerAction]
    split <;> simp
  · simp [processPlayerAction]
    split <;> simp
  · simp [processPlayerAction]
  · simp [processPlayerAction]
  · simp only [processPlayerAction]
    split
    · rename_i h
      simp [h]
    · rename_i h
      simpa [hpl] using h
  · simp [processPlayerAction, calculateMinRaise]
  · intro hflow
    constructor
    · simp only [applyAction, hflow]
      split
      · simp [processPlayerAction, calculateMinRaise]
        rw [← List.getD_eq_getElem?_getD, ← hpldef]
      · simp [processPlayerAction, calculateMinRaise]
        rw [← List.getD_eq_getElem?_getD, ← hpldef]
    · intro hover
      simp only [applyAction, hflow, hover]
      simp [processPlayerAction]
      rw [← List.getD_eq_getElem?_getD, ← hpldef]

/-- C2 witness: the raise semantics applied to the 4-player base state
with seat 0 (not all-in) raising to 10. -/
theorem c2_raise_semantics_witness :
    (fourSeatPrev.players.getD fourSeatPrev.currentPlayerIndex defaultPlayer).isAllIn = false ∧
    (processPlayerAction (BetAction.raise 10)
        (fourSeatPrev.players.getD fourSeatPrev.currentPlayerIndex defaultPlayer)
        fourSeatPrev).updatedPlayer.currentBet =
      min 10 (fourSeatPrev.players.getD fourSeatPrev.currentPlayerIndex defaultPlayer).stack :=
  ⟨by decide, (c2_raise_semantics 10 fourSeatPrev (by decide)).1⟩

/-- C4 counterexample: in the concrete pre-flop state where seat 1 has
folded and seat 3's call completes the street, the engine advances to
the flop but sets the acting index to seat 1 — the folded seat right
after the dealer — not to seat 2, the first non-folded, non-all-in
seat after the dealer as the claim states. -/
theorem c4_first_to_act_counterexample :
    (applyAction (BetAction.call (1 / 2)) foldedSbState).map (fun t => t.bettingRound) =
      some BettingRound.flop ∧
    (applyAction (BetAction.call (1 / 2)) foldedSbState).map (fun t => t.currentPlayerIndex) =
      some 1 ∧
    (foldedSbState.players.getD 1 defaultPlayer).isFolded = true ∧
    (foldedSbState.players.getD 2 defaultPlayer).isFolded = false ∧
    (foldedSbState.players.getD 2 defaultPlayer).isAllIn = false := by
  norm_num [applyAction, foldedSbState, processPlayerAction, seat, defaultPlayer,
    isHandOver, getActivePlayers, isBettingRoundComplete, collectBets, calculateMinRaise,
    getNextBettingRound, getFirstPostFlopPlayer, getNextPlayerIndex, nextIndexGo, dealCards,
    SMALL_BLIND, BIG_BLIND, createDeck, suitOrder, rankOrder]

/-- C4 as amended: whenever after processing an action the hand is not
over and every non-folded, non-all-in player's bet matches the new
current bet, the street advances — preflop to flop dealing exactly the
next 3 cards of the deck, flop to turn and turn to river appending
exactly 1 each (when the deck holds enough cards; with fewer remaining
the deal throws in dealCards, modelled as none), river to showdown —
and on entering the new betting street the table currentBet is 0,
minRaise is the big blind, every player's street bet is reset to 0,
and the acting index is getFirstPostFlopPlayer: the seat directly
after the dealer (the dealer itself heads-up), regardless of whether
that seat is folded or all-in. -/
theorem c4_street_advance (action : BetAction) (s : GameState)
    (hover : isHandOver (s.players.set s.currentPlayerIndex
        (processPlayerAction action (s.players.getD s.currentPlayerIndex defaultPlayer)
          s).updatedPlayer) = false)
    (hcomp : isBettingRoundComplete (s.players.set s.currentPlayerIndex
        (processPlayerAction action (s.players.getD s.currentPlayerIndex defaultPlayer)
          s).updatedPlayer)
        (processPlayerAction action (s.players.getD s.currentPlayerIndex defaultPlayer)
          s).newCurrentBet = true) :
    (s.bettingRound = BettingRound.preflop → 3 ≤ s.deck.length →
      (applyAction action s).map (fun t => (t.bettingRound, t.communityCards, t.deck)) =
        some (BettingRound.flop, s.deck.take 3, s.deck.drop 3) ∧
      (applyAction action s).map (fun t => t.communityCards.length) = some 3) ∧
    (s.bettingRound = BettingRound.preflop → s.deck.length < 3 →
      applyAction action s = none) ∧
    (s.bettingRound = BettingRound.flop → 1 ≤ s.deck.length →
      (applyAction action s).map (fun t => (t.bettingRound, t.communityCards, t.deck)) =
        some (BettingRound.turn, s.communityCards ++ s.deck.take 1, s.deck.drop 1) ∧
      (applyAction action s).map (fun t => t.communityCards.length) =
        some (s.communityCards.length + 1)) ∧
    (s.bettingRound = BettingRound.turn → 1 ≤ s.deck.length →
      (applyAction action s).map (fun t => (t.bettingRound, t.communityCards, t.deck)) =
        some (BettingRound.river, s.communityCards ++ s.deck.take 1, s.deck.drop 1) ∧
      (applyAction action s).map (fun t => t.communityCards.length) =
        some (s.communityCards.length + 1)) ∧
    ((s.bettingRound = BettingRound.flop ∨ s.bettingRound = BettingRound.turn) →
      s.deck.length = 0 → applyAction action s = none) ∧
    (s.bettingRound = BettingRound.river →
      (applyAction action s).map (fun t => t.phase) = some GamePhase.showdown) ∧
    (s.bettingRound ≠ BettingRound.river →
      (if s.bettingRound = BettingRound.preflop then 3 else 1) ≤ s.deck.length →
      (applyAction action s).map (fun t => (t.currentBet, t.minRaise)) =
        some (0, BIG_BLIND) ∧
      (applyAction action s).map
          (fun t => t.players.all (fun p => decide (p.currentBet = 0))) = some true ∧
      (applyAction action s).map (fun t => t.currentPlayerIndex) =
        some (getFirstPostFlopPlayer s.players.length s.dealerButtonIndex) ∧
      (s.players.length ≠ 2 →
        (applyAction action s).map (fun t => t.currentPlayerIndex) =
          some ((s.dealerButtonIndex + 1) % s.players.length))) := by
  simp only [List.getD_eq_getElem?_getD] at hover hcomp
  have hnfp : BettingRound.turn ≠ BettingRound.flop := by decide
  have hnrf : BettingRound.river ≠ BettingRound.flop := by decide
  refine ⟨?_, ?_, ?_, ?_, ?_, ?_, ?_⟩
  · intro hr hlen
    have hno : ¬ s.deck.length < 3 := by omega
    simp [applyAction, hover, hcomp, hr, getNextBettingRound, dealCards, hno,
      List.length_take, Nat.min_eq_left hlen]
  · intro hr hlen
    simp [applyAction, hover, hcomp, hr, getNextBettingRound, dealCards, hlen]
  · intro hr hlen
    have hno : ¬ s.deck.length < 1 := by omega
    simp [applyAction, hover, hcomp, hr, getNextBettingRound, dealCards, hno, hnfp,
      List.length_take, Nat.min_eq_left hlen]
  · intro hr hlen
    have hno : ¬ s.deck.length < 1 := by omega
    simp [applyAction, hover, hcomp, hr, getNextBettingRound, dealCards, hno, hnrf,
      List.length_take, Nat.min_eq_left hlen]
  · intro hr hlen
    have hlt : s.deck.length < 1 := by omega
    rcases hr with hr | hr
    · simp [applyAction, hover, hcomp, hr, getNextBettingRound, dealCards, hlt, hnfp]
    · simp [applyAction, hover, hcomp, hr, getNextBettingRound, dealCards, hlt, hnrf]
  · intro hr
    simp [applyAction, hover, hcomp, hr, getNextBettingRound]
  · intro hr hdealok
    cases hcase : s.bettingRound with
    | river => exact absurd hcase hr
    | preflop =>
        rw [hcase] at hdealok
        simp at hdealok
        have hno : ¬ s.deck.length < 3 := by omega
        simp [applyAction, hover, hcomp, hcase, getNextBettingRound, dealCards, hno,
          collectBets, List.length_set, getFirstPostFlopPlayer, List.all_eq_true]
        refine ⟨fun p hp => ?_, fun hne h2 => absurd h2 hne⟩
        rcases List.mem_or_eq_of_mem_set hp with h | h
        · simp only [List.mem_map] at h
          obtain ⟨q, hq, hqe⟩ := h
          rw [← hqe]
        · subst h
          rfl
    | flop =>
        rw [hcase] at hdealok
        simp at hdealok
        have hno : ¬ s.deck.length < 1 := by omega
        simp [applyAction, hover, hcomp, hcase, getNextBettingRound, dealCards, hno, hnfp,
          collectBets, List.length_set, getFirstPostFlopPlayer, List.all_eq_true]
        refine ⟨fun p hp => ?_, fun hne h2 => absurd h2 hne⟩
        rcases List.mem_or_eq_of_mem_set hp with h | h
        · simp only [List.mem_map] at h
          obtain ⟨q, hq, hqe⟩ := h
          rw [← hqe]
        · subst h
          rfl
    | turn =>
        rw [hcase] at hdealok
        simp at hdealok
        have hno : ¬ s.deck.length < 1 := by omega
        simp [applyAction, hover, hcomp, hcase, getNextBettingRound, dealCards, hno, hnrf,
          collectBets, List.length_set, getFirstPostFlopPlayer, List.all_eq_true]
        refine ⟨fun p hp => ?_, fun hne h2 => absurd h2 hne⟩
        rcases List.mem_or_eq_of_mem_set hp with h | h
        · simp only [List.mem_map] at h
          obtain ⟨q, hq, hqe⟩ := h
          rw [← hqe]
        · subst h
          rfl

/-- C4 witness: in the three-handed matched state (52-card deck) a fold
by seat 0 leaves two non-folded players with matched bets, so the
hypotheses of the street-advance theorem hold and its preflop-to-flop
conclusions follow. -/
theorem c4_street_advance_witness :
    isHandOver (matchedThreePrev.players.set matchedThreePrev.currentPlayerIndex
        (processPlayerAction BetAction.fold
          (matchedThreePrev.players.getD matchedThreePrev.currentPlayerIndex defaultPlayer)
          matchedThreePrev).updatedPlayer) = false ∧
    (matchedThreePrev.bettingRound = BettingRound.preflop →
      3 ≤ matchedThreePrev.deck.length →
      (applyAction BetAction.fold matchedThreePrev).map
          (fun t => (t.bettingRound, t.communityCards, t.deck)) =
        some (BettingRound.flop, matchedThreePrev.deck.take 3,
          matchedThreePrev.deck.drop 3) ∧
      (applyAction BetAction.fold matchedThreePrev).map
          (fun t => t.communityCards.length) = some 3) :=
  ⟨by decide, (c4_street_advance BetAction.fold matchedThreePrev (by decide) (by decide)).1⟩

/-- C5: startHand rotates the dealer by one seat mod the player count;
with the resulting dealer index d over more than two players (and at
least two cards in the deck, so the hole-card deal does not throw) the
small blind sits at (d+1) mod N and the big blind at (d+2) mod N, each
blind is posted capped at the poster's stack with isAllIn marked
exactly when the post consumes the whole stack, the table currentBet
becomes the big blind, minRaise twice the big blind, and the acting
index the seat after the big blind; in the concrete 4-player, blinds
0.5/1, dealer-seat-0 hand this gives seat 1 a street bet of 0.5, seat
2 a street bet of 1, currentBet 1, minRaise 2 and acting seat 3. -/
theorem c5_start_hand (freshDeck : List Card) (prev : GameState)
    (hN : 2 < prev.players.length) (hdeck : 2 ≤ prev.deck.length) :
    (startHand freshDeck prev).isSome = true ∧
    (startHand freshDeck prev).map (fun t => t.dealerButtonIndex) =
      some ((prev.dealerButtonIndex + 1) % prev.players.length) ∧
    (startHand freshDeck prev).map (fun t => t.smallBlindIndex) =
      some (((prev.dealerButtonIndex + 1) % prev.players.length + 1) %
        prev.players.length) ∧
    (startHand freshDeck prev).map (fun t => t.bigBlindIndex) =
      some (((prev.dealerButtonIndex + 1) % prev.players.length + 2) %
        prev.players.length) ∧
    ((prev.dealerButtonIndex + 1) % prev.players.length + 1) % prev.players.length <
      prev.players.length ∧
    ((prev.dealerButtonIndex + 1) % prev.players.length + 2) % prev.players.length <
      prev.players.length ∧
    (startHand freshDeck prev).map (fun t =>
        (t.players[((prev.dealerButtonIndex + 1) % prev.players.length + 1) %
            prev.players.length]?).map (fun p => (p.currentBet, p.stack, p.isAllIn))) =
      some ((prev.players[((prev.dealerButtonIndex + 1) % prev.players.length + 1) %
            prev.players.length]?).map
        (fun p => (min SMALL_BLIND p.stack, p.stack - min SMALL_BLIND p.stack,
                   decide (p.stack = min SMALL_BLIND p.stack)))) ∧
    (startHand freshDeck prev).map (fun t =>
        (t.players[((prev.dealerButtonIndex + 1) % prev.players.length + 2) %
            prev.players.length]?).map (fun p => (p.currentBet, p.stack, p.isAllIn))) =
      some ((prev.players[((prev.dealerButtonIndex + 1) % prev.players.length + 2) %
            prev.players.length]?).map
        (fun p => (min BIG_BLIND p.stack, p.stack - min BIG_BLIND p.stack,
                   decide (p.stack = min BIG_BLIND p.stack)))) ∧
    (startHand freshDeck prev).map (fun t => t.currentBet) = some BIG_BLIND ∧
    (startHand freshDeck prev).map (fun t => t.minRaise) = some (2 * BIG_BLIND) ∧
    (startHand freshDeck prev).map (fun t => t.currentPlayerIndex) =
      some ((((prev.dealerButtonIndex + 1) % prev.players.length + 2) %
        prev.players.length + 1) % prev.players.length) ∧
    (fourSeatHand.dealerButtonIndex = 0 ∧
     (fourSeatHand.players.getD 1 defaultPlayer).currentBet = 1 / 2 ∧
     (fourSeatHand.players.getD 2 defaultPlayer).currentBet = 1 ∧
     fourSeatHand.currentBet = 1 ∧
     fourSeatHand.minRaise = 2 ∧
     fourSeatHand.currentPlayerIndex = 3) := by
  have hpos : 0 < prev.players.length := by omega
  have hne2 : prev.players.length ≠ 2 := by omega
  have hdeal := dealHoleCards_ok prev.deck hdeck (prev.players.map resetPlayer)
  have hsblt : ((prev.dealerButtonIndex + 1) % prev.players.length + 1) % prev.players.length
      < prev.players.length := Nat.mod_lt _ hpos
  have hbblt : ((prev.dealerButtonIndex + 1) % prev.players.length + 2) % prev.players.length
      < prev.players.length := Nat.mod_lt _ hpos
  have hsbne : (prev.dealerButtonIndex + 1 + 2) % prev.players.length ≠
      (prev.dealerButtonIndex + 1 + 1) % prev.players.length := by
    have h3 : prev.dealerButtonIndex + 2 + 1 = prev.dealerButtonIndex + 1 + 2 := by omega
    have h4 : prev.dealerButtonIndex + 2 = prev.dealerButtonIndex + 1 + 1 := by omega
    have := succ_mod_ne (prev.dealerButtonIndex + 2) prev.players.length hN
    rw [h3, h4] at this
    exact this
  refine ⟨by simp [startHand, hdeal], ?_, ?_, ?_, hsblt, hbblt, ?_, ?_, ?_, ?_, ?_, ?_⟩
  · simp [startHand, hdeal, getBlindPositions, hne2]
  · simp [startHand, hdeal, getBlindPositions, hne2]
  · simp [startHand, hdeal, getBlindPositions, hne2]
  · simp only [startHand, hdeal, getBlindPositions, hne2, if_false, ite_false,
      Option.map_some']
    rw [postBlindsFrom_getElem?, List.getElem?_map, List.getElem?_map]
    rcases hx : prev.players[((prev.dealerButtonIndex + 1) % prev.players.length + 1) %
        prev.players.length]? with _ | p
    · simp
    · simp [resetPlayer, postSmallBlind]
  · simp only [startHand, hdeal, getBlindPositions, hne2, if_false, ite_false,
      Option.map_some']
    rw [postBlindsFrom_getElem?, List.getElem?_map, List.getElem?_map]
    rcases hx : prev.players[((prev.dealerButtonIndex + 1) % prev.players.length + 2) %
        prev.players.length]? with _ | p
    · simp
    · simp [resetPlayer, postSmallBlind, postBigBlind, hsbne]
  · simp [startHand, hdeal]
  · simp [startHand, hdeal, BIG_BLIND]
  · simp [startHand, hdeal, getBlindPositions, getFirstPreFlopPlayer, hne2,
      postBlindsFrom_length]
  · norm_num [fourSeatHand, fourSeatPrev, startHand, getBlindPositions,
      getFirstPreFlopPlayer, dealHoleCards, dealCards, resetPlayer, postBlindsFrom,
      postSmallBlind, postBigBlind, seat, SMALL_BLIND, BIG_BLIND, defaultPlayer,
      createDeck, suitOrder, rankOrder]

/-- C5 witness: the start-hand properties instantiated on the concrete
four-player base state with its 52-card deck. -/
theorem c5_start_hand_witness :
    2 < fourSeatPrev.players.length ∧ 2 ≤ fourSeatPrev.deck.length ∧
    (startHand createDeck fourSeatPrev).isSome = true :=
  ⟨by decide, by decide, (c5_start_hand createDeck fourSeatPrev (by decide) (by decide)).1⟩

/-- C7: calculateHitProbability with one card to come is the rule of
2, min(outs*2, 100); with two cards to come it is the exact two-card
formula 1 - (47-outs)/47 * (46-outs)/46 as a percentage rounded to one
decimal; in particular 8 outs with one card give 16 and 9 outs with
two cards give 35.0 (within 0.2). -/
theorem c7_hit_probability (outs : ℕ) :
    calculateHitProbability outs 1 = min ((outs : ℚ) * 2) 100 ∧
    calculateHitProbability outs 2 =
      (jsRound ((1 - (47 - (outs : ℚ)) / 47 * ((46 - (outs : ℚ)) / 46)) * 100 * 10) : ℚ) / 10 ∧
    calculateHitProbability 8 1 = 16 ∧
    |calculateHitProbability 9 2 - 35| ≤ 2 / 10 := by
  refine ⟨by simp [calculateHitProbability], by simp [calculateHitProbability], ?_, ?_⟩
  · norm_num [calculateHitProbability]
  · norm_num [calculateHitProbability, jsRound]

theorem createDeck_nodup : createDeck.Nodup := by decide

theorem mem_createDeck (c : Card) : c ∈ createDeck := by
  revert c
  decide

theorem knownPred_eq_mem (known : List Card) (card : Card) :
    (known.any (fun k => decide (k.rank = card.rank) && decide (k.suit = card.suit))) =
      decide (card ∈ known) := by
  by_cases hmem : card ∈ known
  · simp only [hmem, decide_True]
    rw [List.any_eq_true]
    exact ⟨card, hmem, by simp⟩
  · simp only [hmem, decide_False]
    rw [List.any_eq_false]
    intro k hk
    simp only [Bool.and_eq_true, decide_eq_true_eq, not_and]
    intro h1 h2
    apply hmem
    have hkc : k = card := by
      cases k; cases card; simp_all
    rwa [← hkc]

/-- C10: countOuts returns 0 once five or more community cards are
out, and otherwise a count between 0 and 52 minus the number of
distinct known cards, since every counted out is one of the remaining
unseen cards. -/
theorem c10_outs_in_deck (heroCards communityCards : List Card) :
    (5 ≤ communityCards.length → countOuts heroCards communityCards = 0) ∧
    (communityCards.length < 5 →
      countOuts heroCards communityCards ≤
        52 - ((heroCards ++ communityCards).dedup).length) := by
  constructor
  · intro h
    simp [countOuts, h]
  · intro h
    have hnot : ¬ 5 ≤ communityCards.length := by omega
    rw [countOuts]
    simp only [hnot, if_false, ite_false]
    refine le_trans (List.countP_le_length _) ?_
    have hfun : (fun card => ! (heroCards ++ communityCards).any (fun k =>
        decide (k.rank = card.rank) && decide (k.suit = card.suit))) =
        (fun card => ! decide (card ∈ heroCards ++ communityCards)) := by
      funext card
      rw [knownPred_eq_mem]
    rw [hfun]
    have hsplit : createDeck.length =
        List.countP (fun card => decide (card ∈ heroCards ++ communityCards)) createDeck +
        List.countP (fun card => ! decide (card ∈ heroCards ++ communityCards)) createDeck := by
      simpa using List.length_eq_countP_add_countP
        (fun card => decide (card ∈ heroCards ++ communityCards)) (l := createDeck)
    have hlenf : (createDeck.filter
        (fun card => ! decide (card ∈ heroCards ++ communityCards))).length =
        List.countP (fun card => ! decide (card ∈ heroCards ++ communityCards)) createDeck := by
      rw [List.countP_eq_length_filter]
    have hmemlen : List.countP (fun card => decide (card ∈ heroCards ++ communityCards))
        createDeck = (heroCards ++ communityCards).dedup.length := by
      rw [List.countP_eq_length_filter]
      have hperm : (createDeck.filter
          (fun card => decide (card ∈ heroCards ++ communityCards))).Perm
          (heroCards ++ communityCards).dedup := by
        rw [List.perm_ext_iff_of_nodup (createDeck_nodup.filter _) (List.nodup_dedup _)]
        intro a
        simp [List.mem_filter, List.mem_dedup, mem_createDeck]
      exact hperm.length_eq
    have hdeck : createDeck.length = 52 := by decide
    omega


/-- C10 witness: the outs bounds at a concrete river board (outs 0)
and at a concrete flop board (bounded by the unseen-card count). -/
theorem c10_outs_in_deck_witness :
    countOuts outsHero outsRiverBoard = 0 ∧
    countOuts outsHero outsFlopBoard ≤ 52 - ((outsHero ++ outsFlopBoard).dedup).length :=
  ⟨(c10_outs_in_deck outsHero outsRiverBoard).1 (by decide),
   (c10_outs_in_deck outsHero outsFlopBoard).2 (by decide)⟩


theorem determineRaiseSize_stack_le (cfg : PlayerStyleConfig) (p : Player) (pot hs amt : ℚ)
    (h : determineRaiseSize cfg p pot hs = BetAction.raise amt) : amt ≤ p.stack := by
  simp only [determineRaiseSize, BetAction.raise.injEq] at h
  rw [← h]
  exact min_le_right _ _

theorem highCardEval : evaluateHand
    [Card.mk Suit.hearts Rank.r2, Card.mk Suit.clubs Rank.r7,
     Card.mk Suit.diamonds Rank.r9, Card.mk Suit.spades Rank.rJ,
     Card.mk Suit.hearts Rank.r4] =
    some { ranking := HandRanking.highCard,
           cards := [Card.mk Suit.spades Rank.rJ, Card.mk Suit.diamonds Rank.r9,
                     Card.mk Suit.clubs Rank.r7, Card.mk Suit.hearts Rank.r4,
                     Card.mk Suit.hearts Rank.r2],
           description := "High Card, J" } := by decide

/-- C3 counterexample: with the bluff-friendly style and draws, the
post-flop bluff branch returns a raise of floor(pot * 0.5) = 50 while
the acting player's stack is only 3 (and 50 is not an all-in for that
stack), so decide does return a raise above the stack. -/
theorem c3_raise_exceeds_stack :
    aiDecide bluffyStyle bluffyDraws shortStack bigPotFlop = some (BetAction.raise 50) ∧
    shortStack.stack < 50 ∧
    shortStack.stack ≠ 50 := by
  refine ⟨?_, by norm_num [shortStack], by norm_num [shortStack]⟩
  have hne : BettingRound.flop ≠ BettingRound.preflop := by decide
  have hb : hasThreeToFlush [Card.mk Suit.diamonds Rank.r9, Card.mk Suit.spades Rank.rJ,
      Card.mk Suit.hearts Rank.r4] = false := by decide
  have hs3 : hasThreeToStraight [Card.mk Suit.diamonds Rank.r9, Card.mk Suit.spades Rank.rJ,
      Card.mk Suit.hearts Rank.r4] = false := by decide
  rw [aiDecide]
  norm_num [bigPotFlop, hne, decidePostFlop, highCardEval, bluffyStyle, bluffyDraws,
    shortStack, estimateHandStrength, shouldBluff, hb, hs3, shouldBeAggressive,
    calculatePotOdds, jsRound, jsFloor, determineRaiseSize, jsFindIndex, seat,
    SMALL_BLIND, BIG_BLIND]

/-- C3 as amended: every raise the AI returns is bounded by
max(player.stack, floor(pot * 0.5)) — the raises produced through
determineRaiseSize are capped at the player's stack, but the post-flop
bluff branch returns floor(pot * 0.5) uncapped, and no branch enforces
the minRaise lower bound. -/
theorem c3_raise_bound (cfg : PlayerStyleConfig) (draws : RandomDraws) (player : Player)
    (gs : GameState) (amt : ℚ)
    (h : aiDecide cfg draws player gs = some (BetAction.raise amt)) :
    amt ≤ max player.stack ((jsFloor (gs.pot * (5 / 10)) : ℚ)) := by
  simp only [aiDecide] at h
  split at h
  · rcases hhc : player.holeCards with _ | ⟨c1, rest⟩
    · simp [decidePreFlop, hhc] at h
    rcases rest with _ | ⟨c2, rest2⟩
    · simp [decidePreFlop, hhc] at h
    simp only [decidePreFlop, hhc] at h
    split at h
    · simp at h
    · split at h
      · split at h
        · simp only [Option.some.injEq] at h
          exact le_trans (determineRaiseSize_stack_le _ _ _ _ _ h) (le_max_left _ _)
        · simp at h
      · split at h
        · simp only [Option.some.injEq] at h
          exact le_trans (determineRaiseSize_stack_le _ _ _ _ _ h) (le_max_left _ _)
        · split at h
          · simp at h
          · simp at h
  · simp only [decidePostFlop] at h
    rcases hev : evaluateHand (player.holeCards ++ gs.communityCards) with _ | myHand
    · rw [hev] at h
      simp at h
    rw [hev] at h
    simp only [Option.some.injEq] at h
    split at h
    · split at h
      · simp only [Option.some.injEq] at h
        exact le_trans (determineRaiseSize_stack_le _ _ _ _ _ h) (le_max_left _ _)
      · split at h
        · simp only [Option.some.injEq, BetAction.raise.injEq] at h
          rw [← h]
          exact le_max_right _ _
        · simp at h
    · split at h
      · split at h
        · simp only [Option.some.injEq] at h
          exact le_trans (determineRaiseSize_stack_le _ _ _ _ _ h) (le_max_left _ _)
        · simp at h
      · split at h
        · split at h
          · simp only [Option.some.injEq] at h
            exact le_trans (determineRaiseSize_stack_le _ _ _ _ _ h) (le_max_left _ _)
          · simp at h
        · split at h
          · split at h
            · simp only [Option.some.injEq] at h
              exact le_trans (determineRaiseSize_stack_le _ _ _ _ _ h) (le_max_left _ _)
            · simp at h
          · simp at h

/-- C3 witness: the raise bound applied at the concrete bluff-branch
decision (raise 50 from a 100-chip pot). -/
theorem c3_raise_bound_witness :
    aiDecide bluffyStyle bluffyDraws shortStack bigPotFlop = some (BetAction.raise 50) ∧
    (50 : ℚ) ≤ max shortStack.stack ((jsFloor (bigPotFlop.pot * (5 / 10)) : ℚ)) := by
  have hdec : aiDecide bluffyStyle bluffyDraws shortStack bigPotFlop =
      some (BetAction.raise 50) := by
    have hne : BettingRound.flop ≠ BettingRound.preflop := by decide
    have hb : hasThreeToFlush [Card.mk Suit.diamonds Rank.r9, Card.mk Suit.spades Rank.rJ,
        Card.mk Suit.hearts Rank.r4] = false := by decide
    have hs3 : hasThreeToStraight [Card.mk Suit.diamonds Rank.r9,
        Card.mk Suit.spades Rank.rJ, Card.mk Suit.hearts Rank.r4] = false := by decide
    rw [aiDecide]
    norm_num [bigPotFlop, hne, decidePostFlop, highCardEval, bluffyStyle, bluffyDraws,
      shortStack, estimateHandStrength, shouldBluff, hb, hs3, shouldBeAggressive,
      calculatePotOdds, jsRound, jsFloor, determineRaiseSize, jsFindIndex, seat,
      SMALL_BLIND, BIG_BLIND]
  exact ⟨hdec, c3_raise_bound bluffyStyle bluffyDraws shortStack bigPotFlop 50 hdec⟩
-- sorting infrastructure
theorem insertByRank_eq_orderedInsert (c : Card) (l : List Card) :
    insertByRank c l =
      List.orderedInsert (fun a b => rankValue b.rank ≤ rankValue a.rank) c l := by
  induction l with
  | nil => rfl
  | cons d ds ih => simp [insertByRank, List.orderedInsert, ih]

theorem sortCardsByRank_eq_insertionSort (l : List Card) :
    sortCardsByRank l =
      List.insertionSort (fun a b => rankValue b.rank ≤ rankValue a.rank) l := by
  induction l with
  | nil => rfl
  | cons c cs ih => simp [sortCardsByRank, List.insertionSort, ih, insertByRank_eq_orderedInsert]

theorem sortCardsByRank_perm (l : List Card) : (sortCardsByRank l).Perm l := by
  rw [sortCardsByRank_eq_insertionSort]
  exact List.perm_insertionSort _ l

theorem sortCardsByRank_sorted (l : List Card) :
    (sortCardsByRank l).Sorted (fun a b => rankValue b.rank ≤ rankValue a.rank) := by
  rw [sortCardsByRank_eq_insertionSort]
  haveI : IsTotal Card (fun a b => rankValue b.rank ≤ rankValue a.rank) :=
    ⟨fun a b => by rcases Nat.le_total (rankValue b.rank) (rankValue a.rank) with h | h <;> simp [h]⟩
  haveI : IsTrans Card (fun a b => rankValue b.rank ≤ rankValue a.rank) :=
    ⟨fun a b c h1 h2 => le_trans h2 h1⟩
  exact List.sorted_insertionSort _ l

theorem rankValue_inj : ∀ a b : Rank, rankValue a = rankValue b → a = b := by decide

theorem sorted_rank_map_eq {l1 l2 : List Card} (hp : l1.Perm l2) :
    (sortCardsByRank l1).map (fun c => c.rank) =
      (sortCardsByRank l2).map (fun c => c.rank) := by
  haveI : IsAntisymm Rank (fun a b => rankValue b ≤ rankValue a) :=
    ⟨fun a b h1 h2 => rankValue_inj a b (Nat.le_antisymm h2 h1)⟩
  apply List.eq_of_perm_of_sorted (r := fun a b => rankValue b ≤ rankValue a)
  · exact ((sortCardsByRank_perm l1).map _).trans ((hp.map _).trans ((sortCardsByRank_perm l2).map _).symm)
  · rw [List.Sorted, List.pairwise_map]
    exact sortCardsByRank_sorted l1
  · rw [List.Sorted, List.pairwise_map]
    exact sortCardsByRank_sorted l2

theorem eq_of_rank_map_eq_of_suit (s : Suit) :
    ∀ l1 l2 : List Card, (∀ c ∈ l1, c.suit = s) → (∀ c ∈ l2, c.suit = s) →
      l1.map (fun c => c.rank) = l2.map (fun c => c.rank) → l1 = l2 := by
  intro l1
  induction l1 with
  | nil =>
      intro l2 _ _ h
      cases l2 with
      | nil => rfl
      | cons d ds => simp at h
  | cons c cs ih =>
      intro l2 h1 h2 h
      cases l2 with
      | nil => simp at h
      | cons d ds =>
          simp only [List.map_cons, List.cons.injEq] at h
          have hcs : c.suit = s := h1 c (by simp)
          have hds : d.suit = s := h2 d (by simp)
          have hcd : c = d := by
            cases c; cases d
            simp_all
          rw [hcd, ih ds (fun x hx => h1 x (by simp [hx])) (fun x hx => h2 x (by simp [hx])) h.2]

theorem suited_sort_eq {l1 l2 : List Card} (s : Suit) (hp : l1.Perm l2) :
    sortCardsByRank (l1.filter (fun c => decide (c.suit = s))) =
      sortCardsByRank (l2.filter (fun c => decide (c.suit = s))) := by
  have hpf : (l1.filter (fun c => decide (c.suit = s))).Perm
      (l2.filter (fun c => decide (c.suit = s))) := hp.filter _
  apply eq_of_rank_map_eq_of_suit s
  · intro c hc
    have := ((sortCardsByRank_perm _).mem_iff.mp hc)
    simp only [List.mem_filter, decide_eq_true_eq] at this
    exact this.2
  · intro c hc
    have := ((sortCardsByRank_perm _).mem_iff.mp hc)
    simp only [List.mem_filter, decide_eq_true_eq] at this
    exact this.2
  · exact sorted_rank_map_eq hpf

theorem checkStraight_congr {a b : List Card} (h : sortCardsByRank a = sortCardsByRank b) :
    checkStraight a = checkStraight b := by
  rw [checkStraight, checkStraight, h]

theorem findSome?_congr {α β : Type} (f g : α → Option β) (l : List α)
    (h : ∀ x ∈ l, f x = g x) : l.findSome? f = l.findSome? g := by
  induction l with
  | nil => rfl
  | cons a as ih =>
      rw [List.findSome?_cons, List.findSome?_cons, h a (by simp)]
      cases g a with
      | none => exact ih (fun x hx => h x (by simp [hx]))
      | some b => rfl

theorem checkFlush_perm {l1 l2 : List Card} (hp : l1.Perm l2) :
    checkFlush l1 = checkFlush l2 := by
  rw [checkFlush, checkFlush]
  apply findSome?_congr
  intro s _
  have hlen : (l1.filter (fun c => decide (c.suit = s))).length =
      (l2.filter (fun c => decide (c.suit = s))).length := (hp.filter _).length_eq
  have hsort := suited_sort_eq s hp
  simp only [hsort, hlen]

theorem checkStraightFlush_perm {l1 l2 : List Card} (hp : l1.Perm l2) :
    checkStraightFlush l1 = checkStraightFlush l2 := by
  rw [checkStraightFlush, checkStraightFlush]
  apply findSome?_congr
  intro s _
  have hlen : (l1.filter (fun c => decide (c.suit = s))).length =
      (l2.filter (fun c => decide (c.suit = s))).length := (hp.filter _).length_eq
  have hstr := checkStraight_congr (suited_sort_eq s hp)
  simp only [hstr, hlen]

theorem checkRoyalFlush_perm {l1 l2 : List Card} (hp : l1.Perm l2) :
    checkRoyalFlush l1 = checkRoyalFlush l2 := by
  rw [checkRoyalFlush, checkRoyalFlush, checkStraightFlush_perm hp]

theorem dedupFirstAux_mem {α : Type} [DecidableEq α] (seen l : List α) (x : α) :
    x ∈ dedupFirstAux seen l ↔ x ∈ l ∧ x ∉ seen := by
  induction l generalizing seen with
  | nil => simp [dedupFirstAux]
  | cons a as ih =>
      by_cases ha : a ∈ seen
      · rw [dedupFirstAux, if_pos ha, ih]
        simp only [List.mem_cons]
        constructor
        · rintro ⟨h1, h2⟩
          exact ⟨Or.inr h1, h2⟩
        · rintro ⟨h1 | h1, h2⟩
          · exact absurd (h1 ▸ ha) h2
          · exact ⟨h1, h2⟩
  
      · rw [dedupFirstAux, if_neg ha]
        simp only [List.mem_cons, ih (a :: seen)]
        constructor
        · rintro (rfl | ⟨h1, h2⟩)
          · exact ⟨Or.inl rfl, ha⟩
          · refine ⟨Or.inr h1, ?_⟩
            intro hx
            exact h2 (by simp [hx])
        · rintro ⟨rfl | h1, h2⟩
          · exact Or.inl rfl
          · by_cases hxa : x = a
            · exact Or.inl hxa
            · exact Or.inr ⟨h1, by simp [hxa, h2]⟩

theorem dedupFirstAux_nodup {α : Type} [DecidableEq α] (seen l : List α) :
    (dedupFirstAux seen l).Nodup := by
  induction l generalizing seen with
  | nil => simp [dedupFirstAux]
  | cons a as ih =>
      by_cases ha : a ∈ seen
      · rw [dedupFirstAux, if_pos ha]
        exact ih seen
      · rw [dedupFirstAux, if_neg ha]
        refine List.Nodup.cons ?_ (ih (a :: seen))
        intro hmem
        rw [dedupFirstAux_mem] at hmem
        exact hmem.2 (by simp)

theorem dedupFirst_mem {α : Type} [DecidableEq α] (l : List α) (x : α) :
    x ∈ dedupFirst l ↔ x ∈ l := by
  rw [dedupFirst, dedupFirstAux_mem]
  simp

theorem dedupFirst_nodup {α : Type} [DecidableEq α] (l : List α) : (dedupFirst l).Nodup :=
  dedupFirstAux_nodup [] l

theorem dedupFirst_perm {α : Type} [DecidableEq α] {l1 l2 : List α} (hp : l1.Perm l2) :
    (dedupFirst l1).Perm (dedupFirst l2) := by
  rw [List.perm_ext_iff_of_nodup (dedupFirst_nodup l1) (dedupFirst_nodup l2)]
  intro a
  rw [dedupFirst_mem, dedupFirst_mem, hp.mem_iff]

theorem getRankCounts_perm {l1 l2 : List Card} (hp : l1.Perm l2) :
    (getRankCounts l1).Perm (getRankCounts l2) := by
  rw [getRankCounts, getRankCounts]
  have hfun : (fun r => (r, l1.countP (fun c => decide (c.rank = r)))) =
      (fun r => (r, l2.countP (fun c => decide (c.rank = r)))) := by
    funext r
    rw [hp.countP_eq]
  rw [hfun]
  exact (dedupFirst_perm (hp.map _)).map _

theorem getRankCounts_count {l : List Card} {e : Rank × Nat} (he : e ∈ getRankCounts l) :
    e.2 = l.countP (fun c => decide (c.rank = e.1)) := by
  rw [getRankCounts] at he
  simp only [List.mem_map] at he
  obtain ⟨r, _, hre⟩ := he
  rw [← hre]

theorem getRankCounts_keys_nodup (l : List Card) :
    ((getRankCounts l).map (fun e => e.1)).Nodup := by
  rw [getRankCounts, List.map_map]
  have : ((fun e : Rank × Nat => e.1) ∘ fun r => (r, l.countP (fun c => decide (c.rank = r)))) =
      id := by
    funext r
    rfl
  rw [this, List.map_id]
  exact dedupFirst_nodup _

theorem getRankCounts_exists {l : List Card} {r : Rank} (h : ∃ c ∈ l, c.rank = r) :
    (r, l.countP (fun c => decide (c.rank = r))) ∈ getRankCounts l := by
  rw [getRankCounts]
  simp only [List.mem_map]
  refine ⟨r, ?_, rfl⟩
  rw [dedupFirst_mem]
  obtain ⟨c, hc, hcr⟩ := h
  simp only [List.mem_map]
  exact ⟨c, hc, hcr⟩

theorem find?_perm_unique {α : Type} {l1 l2 : List α} (hp : l1.Perm l2) (p : α → Bool)
    (huniq : ∀ a ∈ l1, ∀ b ∈ l1, p a = true → p b = true → a = b) :
    l1.find? p = l2.find? p := by
  rcases h1 : l1.find? p with _ | a
  · rw [List.find?_eq_none] at h1
    symm
    rw [List.find?_eq_none]
    intro x hx
    exact h1 x (hp.mem_iff.mpr hx)
  · rcases h2 : l2.find? p with _ | b
    · rw [List.find?_eq_none] at h2
      exact absurd (List.find?_some h1)
        (h2 a (hp.mem_iff.mp (List.mem_of_find?_eq_some h1)))
    · have := huniq a (List.mem_of_find?_eq_some h1)
        b (hp.mem_iff.mpr (List.mem_of_find?_eq_some h2))
        (List.find?_some h1) (List.find?_some h2)
      rw [this]

theorem maxRankBy_go (pred : Rank × Nat → Bool) :
    ∀ (es : List (Rank × Nat)) (b : Rank),
      ∃ r, es.foldl (fun best e =>
          if pred e then
            match best with
            | none => some e.1
            | some b => if rankValue b < rankValue e.1 then some e.1 else some b
          else best) (some b) = some r ∧
        (r = b ∨ ∃ n, (r, n) ∈ es ∧ pred (r, n) = true) ∧
        rankValue b ≤ rankValue r ∧
        (∀ e ∈ es, pred e = true → rankValue e.1 ≤ rankValue r) := by
  intro es
  induction es with
  | nil =>
      intro b
      exact ⟨b, rfl, Or.inl rfl, le_refl _, by simp⟩
  | cons e es ih =>
      intro b
      by_cases hpe : pred e = true
      · by_cases hlt : rankValue b < rankValue e.1
        · obtain ⟨r, h1, h2, h3, h4⟩ := ih e.1
          refine ⟨r, ?_, ?_, ?_, ?_⟩
          · simp only [List.foldl_cons, hpe, if_true, hlt]
            exact h1
          · rcases h2 with h2 | ⟨n, hn1, hn2⟩
            · exact Or.inr ⟨e.2, by simp [h2], by rwa [h2]⟩
            · exact Or.inr ⟨n, by simp [hn1], hn2⟩
          · omega
          · intro x hx hpx
            rcases List.mem_cons.mp hx with rfl | hx'
            · exact h3
            · exact h4 x hx' hpx
        · obtain ⟨r, h1, h2, h3, h4⟩ := ih b
          refine ⟨r, ?_, ?_, ?_, ?_⟩
          · simp only [List.foldl_cons, hpe, if_true, hlt]
            simpa [hlt] using h1
          · rcases h2 with h2 | ⟨n, hn1, hn2⟩
            · exact Or.inl h2
            · exact Or.inr ⟨n, by simp [hn1], hn2⟩
          · exact h3
          · intro x hx hpx
            rcases List.mem_cons.mp hx with rfl | hx'
            · omega
            · exact h4 x hx' hpx
      · obtain ⟨r, h1, h2, h3, h4⟩ := ih b
        refine ⟨r, ?_, ?_, ?_, ?_⟩
        · simpa [List.foldl_cons, hpe] using h1
        · rcases h2 with h2 | ⟨n, hn1, hn2⟩
          · exact Or.inl h2
          · exact Or.inr ⟨n, by simp [hn1], hn2⟩
        · exact h3
        · intro x hx hpx
          rcases List.mem_cons.mp hx with rfl | hx'
          · rw [hpx] at hpe
            exact absurd rfl hpe
          · exact h4 x hx' hpx

theorem maxRankBy_none_iff (pred : Rank × Nat → Bool) (entries : List (Rank × Nat)) :
    maxRankBy pred entries = none ↔ ∀ e ∈ entries, pred e = false := by
  induction entries with
  | nil => simp [maxRankBy]
  | cons e es ih =>
      rw [maxRankBy]
      by_cases hpe : pred e = true
      · simp only [List.foldl_cons, hpe, if_true]
        obtain ⟨r, h1, _, _, _⟩ := maxRankBy_go pred es e.1
        rw [h1]
        simp [hpe]
      · simp only [List.foldl_cons, hpe, Bool.false_eq_true, if_false]
        rw [maxRankBy] at ih
        rw [ih]
        constructor
        · intro h x hx
          rcases List.mem_cons.mp hx with rfl | hx'
          · simpa using hpe
          · exact h x hx'
        · intro h x hx
          exact h x (by simp [hx])

theorem maxRankBy_spec (pred : Rank × Nat → Bool) (entries : List (Rank × Nat)) (r : Rank)
    (h : maxRankBy pred entries = some r) :
    (∃ n, (r, n) ∈ entries ∧ pred (r, n) = true) ∧
      (∀ e ∈ entries, pred e = true → rankValue e.1 ≤ rankValue r) := by
  induction entries with
  | nil => simp [maxRankBy] at h
  | cons e es ih =>
      rw [maxRankBy] at h
      by_cases hpe : pred e = true
      · simp only [List.foldl_cons, hpe, if_true] at h
        obtain ⟨r', h1, h2, h3, h4⟩ := maxRankBy_go pred es e.1
        rw [h1] at h
        cases h
        constructor
        · rcases h2 with rfl | ⟨n, hn1, hn2⟩
          · exact ⟨e.2, by simp, by simpa using hpe⟩
          · exact ⟨n, by simp [hn1], hn2⟩
        · intro x hx hpx
          rcases List.mem_cons.mp hx with rfl | hx'
          · exact h3
          · exact h4 x hx' hpx
      · simp only [List.foldl_cons, hpe, Bool.false_eq_true, if_false] at h
        obtain ⟨ha, hb⟩ := ih h
        constructor
        · obtain ⟨n, hn1, hn2⟩ := ha
          exact ⟨n, by simp [hn1], hn2⟩
        · intro x hx hpx
          rcases List.mem_cons.mp hx with rfl | hx'
          · rw [hpx] at hpe
            exact absurd rfl hpe
          · exact hb x hx' hpx

theorem maxRankBy_perm {e1 e2 : List (Rank × Nat)} (hp : e1.Perm e2)
    (pred : Rank × Nat → Bool) : maxRankBy pred e1 = maxRankBy pred e2 := by
  rcases h1 : maxRankBy pred e1 with _ | r1
  · rw [maxRankBy_none_iff] at h1
    symm
    rw [maxRankBy_none_iff]
    intro e he
    exact h1 e (hp.mem_iff.mpr he)
  · rcases h2 : maxRankBy pred e2 with _ | rb
    · rw [maxRankBy_none_iff] at h2
      obtain ⟨⟨n, hn1, hn2⟩, _⟩ := maxRankBy_spec pred e1 r1 h1
      have := h2 (r1, n) (hp.mem_iff.mp hn1)
      rw [hn2] at this
      exact absurd this (by simp)
    · obtain ⟨⟨n1, hn11, hn12⟩, hmax1⟩ := maxRankBy_spec pred e1 r1 h1
      obtain ⟨⟨n2, hn21, hn22⟩, hmax2⟩ := maxRankBy_spec pred e2 rb h2
      have hle1 : rankValue rb ≤ rankValue r1 := hmax1 (rb, n2) (hp.mem_iff.mpr hn21) hn22
      have hle2 : rankValue r1 ≤ rankValue rb := hmax2 (r1, n1) (hp.mem_iff.mp hn11) hn12
      rw [rankValue_inj r1 rb (Nat.le_antisymm hle2 hle1)]


theorem countP_two_ranks_le (l : List Card) (ra rb : Rank) (hne : ra ≠ rb) :
    l.countP (fun c => decide (c.rank = ra)) + l.countP (fun c => decide (c.rank = rb)) ≤
      l.length := by
  induction l with
  | nil => simp
  | cons c cs ih =>
      rw [List.countP_cons, List.countP_cons, List.length_cons]
      have hne' : ¬ rb = ra := fun h => hne h.symm
      by_cases h1 : c.rank = ra
      · have h2 : ¬ c.rank = rb := fun h => hne (h1 ▸ h ▸ rfl)
        simp [h1, h2, hne]
        omega
      · by_cases h2 : c.rank = rb
        · simp [h1, h2, hne']
          omega
        · simp [h1, h2]
          omega

theorem checkFourOfAKind_perm {l1 l2 : List Card} (hp : l1.Perm l2) (hlen : l1.length ≤ 7) :
    (checkFourOfAKind l1).map evalTag = (checkFourOfAKind l2).map evalTag := by
  have hfind : (getRankCounts l1).find? (fun e => decide (e.2 = 4)) =
      (getRankCounts l2).find? (fun e => decide (e.2 = 4)) := by
    apply find?_perm_unique (getRankCounts_perm hp)
    intro a ha b hb hpa hpb
    simp only [decide_eq_true_eq] at hpa hpb
    have hka := getRankCounts_count ha
    have hkb := getRankCounts_count hb
    by_cases hne : a.1 = b.1
    · have : a.2 = b.2 := by
        rw [hka, hkb, hne]
      cases a; cases b
      simp_all
    · exfalso
      have hbound := countP_two_ranks_le l1 a.1 b.1 hne
      omega
  rw [checkFourOfAKind, checkFourOfAKind, hfind]
  cases (getRankCounts l2).find? (fun e => decide (e.2 = 4)) with
  | none => rfl
  | some e => rfl

theorem selectPairRank_perm {e1 e2 : List (Rank × Nat)} (hp : e1.Perm e2) (t : Option Rank) :
    selectPairRank t e1 = selectPairRank t e2 := by
  rw [selectPairRank, selectPairRank,
    maxRankBy_perm hp (fun e => neqOpt e.1 t && decide (2 ≤ e.2))]
  rcases h0 : maxRankBy (fun e => neqOpt e.1 t && decide (2 ≤ e.2)) e2 with _ | p
  · simp only [Option.isNone_none, Bool.and_true]
    have hnone := h0
    rw [← maxRankBy_perm hp] at hnone
    rw [maxRankBy_none_iff] at hnone
    have hf1 : e1.find? (fun e => neqOpt e.1 t && decide (3 ≤ e.2)) = none := by
      rw [List.find?_eq_none]
      intro x hx hpx
      have h2 : (neqOpt x.1 t && decide (2 ≤ x.2)) = true := by
        simp only [Bool.and_eq_true, decide_eq_true_eq] at hpx ⊢
        exact ⟨hpx.1, by omega⟩
      rw [hnone x hx] at h2
      exact absurd h2 (by simp)
    have hf2 : e2.find? (fun e => neqOpt e.1 t && decide (3 ≤ e.2)) = none := by
      rw [List.find?_eq_none]
      intro x hx hpx
      have h2 : (neqOpt x.1 t && decide (2 ≤ x.2)) = true := by
        simp only [Bool.and_eq_true, decide_eq_true_eq] at hpx ⊢
        exact ⟨hpx.1, by omega⟩
      rw [hnone x (hp.mem_iff.mpr hx)] at h2
      exact absurd h2 (by simp)
    rw [hf1, hf2]
  · simp

theorem checkFullHouse_perm {l1 l2 : List Card} (hp : l1.Perm l2) :
    (checkFullHouse l1).map evalTag = (checkFullHouse l2).map evalTag := by
  have hperm := getRankCounts_perm hp
  rw [checkFullHouse, checkFullHouse, maxRankBy_perm hperm (fun e => decide (3 ≤ e.2)),
    selectPairRank_perm hperm]
  rcases maxRankBy (fun e => decide (3 ≤ e.2)) (getRankCounts l2) with _ | t
  · rfl
  · rcases selectPairRank (some t) (getRankCounts l2) with _ | p
    · rfl
    · rfl

theorem checkFullHouse_none_cases {l : List Card} (h : checkFullHouse l = none) :
    (∀ e ∈ getRankCounts l, e.2 < 3) ∨
    (∃ t, maxRankBy (fun e => decide (3 ≤ e.2)) (getRankCounts l) = some t ∧
      ∀ e ∈ getRankCounts l, e.1 ≠ t → e.2 < 2) := by
  simp only [checkFullHouse] at h
  rcases h3 : maxRankBy (fun e => decide (3 ≤ e.2)) (getRankCounts l) with _ | t
  · left
    rw [maxRankBy_none_iff] at h3
    intro e he
    have := h3 e he
    simpa using this
  · right
    rw [h3] at h
    rcases hpr : selectPairRank (some t) (getRankCounts l) with _ | p
    · refine ⟨t, rfl, ?_⟩
      rw [selectPairRank] at hpr
      rcases h0 : maxRankBy (fun e => neqOpt e.1 (some t) && decide (2 ≤ e.2))
          (getRankCounts l) with _ | p0
      · rw [maxRankBy_none_iff] at h0
        intro e he hne
        have := h0 e he
        simp only [neqOpt, Bool.and_eq_false_iff, decide_eq_false_iff_not,
          Decidable.not_not, not_le] at this
        rcases this with h' | h'
        · exact absurd h' hne
        · exact h'
      · rw [h0] at hpr
        simp at hpr
    · rw [hpr] at h
      simp at h

theorem checkThreeOfAKind_perm {l1 l2 : List Card} (hp : l1.Perm l2)
    (hfh : checkFullHouse l1 = none) :
    (checkThreeOfAKind l1).map evalTag = (checkThreeOfAKind l2).map evalTag := by
  have hfind : (getRankCounts l1).find? (fun e => decide (e.2 = 3)) =
      (getRankCounts l2).find? (fun e => decide (e.2 = 3)) := by
    apply find?_perm_unique (getRankCounts_perm hp)
    intro a ha b hb hpa hpb
    simp only [decide_eq_true_eq] at hpa hpb
    rcases checkFullHouse_none_cases hfh with hc | ⟨t, ht, hc⟩
    · exact absurd hpa (by have := hc a ha; omega)
    · have hat : a.1 = t := by
        by_contra hne
        have := hc a ha hne
        omega
      have hbt : b.1 = t := by
        by_contra hne
        have := hc b hb hne
        omega
      cases a; cases b
      simp_all
  rw [checkThreeOfAKind, checkThreeOfAKind, hfind]
  cases (getRankCounts l2).find? (fun e => decide (e.2 = 3)) with
  | none => rfl
  | some e => rfl

theorem insertRankDesc_eq_orderedInsert (r : Rank) (l : List Rank) :
    insertRankDesc r l =
      List.orderedInsert (fun a b => rankValue b ≤ rankValue a) r l := by
  induction l with
  | nil => rfl
  | cons x xs ih => simp [insertRankDesc, List.orderedInsert, ih]

theorem sortRanksDesc_eq_insertionSort (l : List Rank) :
    sortRanksDesc l = List.insertionSort (fun a b => rankValue b ≤ rankValue a) l := by
  induction l with
  | nil => rfl
  | cons x xs ih =>
      simp [sortRanksDesc, List.insertionSort, ih, insertRankDesc_eq_orderedInsert]

theorem sortRanksDesc_perm (l : List Rank) : (sortRanksDesc l).Perm l := by
  rw [sortRanksDesc_eq_insertionSort]
  exact List.perm_insertionSort _ l

theorem sortRanksDesc_of_perm {p1 p2 : List Rank} (hp : p1.Perm p2) :
    sortRanksDesc p1 = sortRanksDesc p2 := by
  haveI : IsAntisymm Rank (fun a b => rankValue b ≤ rankValue a) :=
    ⟨fun a b h1 h2 => rankValue_inj a b (Nat.le_antisymm h2 h1)⟩
  haveI : IsTotal Rank (fun a b => rankValue b ≤ rankValue a) :=
    ⟨fun a b => by rcases Nat.le_total (rankValue b) (rankValue a) with h | h <;> simp [h]⟩
  haveI : IsTrans Rank (fun a b => rankValue b ≤ rankValue a) :=
    ⟨fun a b c h1 h2 => le_trans h2 h1⟩
  apply List.eq_of_perm_of_sorted (r := fun a b => rankValue b ≤ rankValue a)
  · exact (sortRanksDesc_perm p1).trans (hp.trans (sortRanksDesc_perm p2).symm)
  · rw [sortRanksDesc_eq_insertionSort]
    exact List.sorted_insertionSort _ p1
  · rw [sortRanksDesc_eq_insertionSort]
    exact List.sorted_insertionSort _ p2

theorem checkTwoPair_perm {l1 l2 : List Card} (hp : l1.Perm l2) :
    (checkTwoPair l1).map evalTag = (checkTwoPair l2).map evalTag := by
  have hpairs : (((getRankCounts l1).filter (fun e => decide (2 ≤ e.2))).map
      (fun e => e.1)).Perm
      (((getRankCounts l2).filter (fun e => decide (2 ≤ e.2))).map (fun e => e.1)) :=
    ((getRankCounts_perm hp).filter _).map _
  rw [checkTwoPair, checkTwoPair, sortRanksDesc_of_perm hpairs]
  rcases hs : sortRanksDesc (((getRankCounts l2).filter (fun e => decide (2 ≤ e.2))).map
      (fun e => e.1)) with _ | ⟨p1, _ | ⟨p2, rest⟩⟩ <;> (rw [hs]; try rfl)

theorem two_mem_le_length {α : Type} {l : List α} {a b : α} (ha : a ∈ l) (hb : b ∈ l)
    (hne : a ≠ b) : 2 ≤ l.length := by
  cases l with
  | nil => simp at ha
  | cons x xs =>
      cases xs with
      | nil =>
          simp only [List.mem_singleton] at ha hb
          exact absurd (ha.trans hb.symm) hne
      | cons y ys => simp only [List.length_cons]; omega

theorem checkTwoPair_none_short {l : List Card} (h : checkTwoPair l = none) :
    ((getRankCounts l).filter (fun e => decide (2 ≤ e.2))).length ≤ 1 := by
  by_contra hlong
  push_neg at hlong
  rw [checkTwoPair] at h
  have hlen : (sortRanksDesc (((getRankCounts l).filter
      (fun e => decide (2 ≤ e.2))).map (fun e => e.1))).length =
      ((getRankCounts l).filter (fun e => decide (2 ≤ e.2))).length := by
    rw [(sortRanksDesc_perm _).length_eq, List.length_map]
  rcases hs : sortRanksDesc (((getRankCounts l).filter
      (fun e => decide (2 ≤ e.2))).map (fun e => e.1)) with _ | ⟨p1, _ | ⟨p2, rest⟩⟩
  · rw [hs] at hlen
    simp at hlen
    omega
  · rw [hs] at hlen
    simp at hlen
    omega
  · rw [hs] at h
    simp at h

theorem checkPair_perm {l1 l2 : List Card} (hp : l1.Perm l2)
    (htp : checkTwoPair l1 = none) :
    (checkPair l1).map evalTag = (checkPair l2).map evalTag := by
  have hshort := checkTwoPair_none_short htp
  have hfind : (getRankCounts l1).find? (fun e => decide (e.2 = 2)) =
      (getRankCounts l2).find? (fun e => decide (e.2 = 2)) := by
    apply find?_perm_unique (getRankCounts_perm hp)
    intro a ha b hb hpa hpb
    simp only [decide_eq_true_eq] at hpa hpb
    by_contra hne
    have hain : a ∈ (getRankCounts l1).filter (fun e => decide (2 ≤ e.2)) := by
      rw [List.mem_filter]
      exact ⟨ha, by simp [hpa]⟩
    have hbin : b ∈ (getRankCounts l1).filter (fun e => decide (2 ≤ e.2)) := by
      rw [List.mem_filter]
      exact ⟨hb, by simp [hpb]⟩
    have := two_mem_le_length hain hbin hne
    omega
  rw [checkPair, checkPair, hfind]
  cases (getRankCounts l2).find? (fun e => decide (e.2 = 2)) with
  | none => rfl
  | some e => rfl

theorem find_rank_mem {l : List Card} {r : Rank} (h : r ∈ l.map (fun c => c.rank)) :
    ((l.find? (fun c => decide (c.rank = r))).getD defaultCard) ∈ l := by
  rcases hf : l.find? (fun c => decide (c.rank = r)) with _ | c
  · rw [List.find?_eq_none] at hf
    obtain ⟨c, hc, hcr⟩ := List.mem_map.mp h
    exact absurd (by simp [hcr]) (hf c hc)
  · rw [hf]
    exact List.mem_of_find?_eq_some hf

theorem find_rank_rank {l : List Card} {r : Rank} (h : r ∈ l.map (fun c => c.rank)) :
    ((l.find? (fun c => decide (c.rank = r))).getD defaultCard).rank = r := by
  rcases hf : l.find? (fun c => decide (c.rank = r)) with _ | c
  · rw [List.find?_eq_none] at hf
    obtain ⟨c, hc, hcr⟩ := List.mem_map.mp h
    exact absurd (by simp [hcr]) (hf c hc)
  · rw [hf]
    have := List.find?_some hf
    simpa using this

theorem find_rank_congr {l1 l2 : List Card}
    (h : l1.map (fun c => c.rank) = l2.map (fun c => c.rank)) (r : Rank) :
    ((l1.find? (fun c => decide (c.rank = r))).getD defaultCard).rank =
      ((l2.find? (fun c => decide (c.rank = r))).getD defaultCard).rank := by
  by_cases hm : r ∈ l1.map (fun c => c.rank)
  · rw [find_rank_rank hm, find_rank_rank (h ▸ hm)]
  · have hm2 : r ∉ l2.map (fun c => c.rank) := h ▸ hm
    have h1 : l1.find? (fun c => decide (c.rank = r)) = none := by
      rw [List.find?_eq_none]
      intro c hc hpc
      exact hm (List.mem_map.mpr ⟨c, hc, by simpa using hpc⟩)
    have h2 : l2.find? (fun c => decide (c.rank = r)) = none := by
      rw [List.find?_eq_none]
      intro c hc hpc
      exact hm2 (List.mem_map.mpr ⟨c, hc, by simpa using hpc⟩)
    rw [h1, h2]

theorem straightFromRanks_tag {s1 s2 : List Card}
    (h : s1.map (fun c => c.rank) = s2.map (fun c => c.rank)) (fr : List Rank) :
    evalTag (straightFromRanks s1 fr) = evalTag (straightFromRanks s2 fr) := by
  cases fr with
  | nil => rfl
  | cons r rs =>
      simp only [straightFromRanks, evalTag, List.map_cons, List.headD_cons]
      rw [find_rank_congr h r]

theorem findRun_tag {s1 s2 : List Card}
    (h : s1.map (fun c => c.rank) = s2.map (fun c => c.rank)) (rl : List Rank) :
    (findRun s1 rl).map evalTag = (findRun s2 rl).map evalTag := by
  induction rl with
  | nil => rfl
  | cons r rest ih =>
      simp only [findRun]
      by_cases hc : (decide (((r :: rest).take 5).length = 5) &&
          isConsecutive ((r :: rest).take 5)) = true
      · rw [if_pos hc, if_pos hc]
        simp only [Option.map_some']
        rw [straightFromRanks_tag h]
      · rw [if_neg hc, if_neg hc]
        exact ih

theorem checkStraight_tag {l1 l2 : List Card} (hp : l1.Perm l2) :
    (checkStraight l1).map evalTag = (checkStraight l2).map evalTag := by
  have h := sorted_rank_map_eq hp
  simp only [checkStraight]
  rw [h]
  by_cases hcond : Rank.rA ∈ dedupFirst ((sortCardsByRank l2).map (fun c => c.rank)) ∧
      Rank.r2 ∈ dedupFirst ((sortCardsByRank l2).map (fun c => c.rank)) ∧
      Rank.r3 ∈ dedupFirst ((sortCardsByRank l2).map (fun c => c.rank)) ∧
      Rank.r4 ∈ dedupFirst ((sortCardsByRank l2).map (fun c => c.rank)) ∧
      Rank.r5 ∈ dedupFirst ((sortCardsByRank l2).map (fun c => c.rank))
  · rw [if_pos hcond, if_pos hcond]
    rfl
  · rw [if_neg hcond, if_neg hcond]
    exact findRun_tag h _

theorem headD_rank_congr {l1 l2 : List Card}
    (h : l1.map (fun c => c.rank) = l2.map (fun c => c.rank)) :
    (l1.headD defaultCard).rank = (l2.headD defaultCard).rank := by
  cases l1 with
  | nil =>
      cases l2 with
      | nil => rfl
      | cons d ds => simp at h
  | cons c cs =>
      cases l2 with
      | nil => simp at h
      | cons d ds =>
          simp only [List.map_cons, List.cons.injEq] at h
          simp [List.headD_cons, h.1]

theorem checkHighCard_tag {l1 l2 : List Card} (hp : l1.Perm l2) :
    evalTag (checkHighCard l1) = evalTag (checkHighCard l2) := by
  have h : ((sortCardsByRank l1).take 5).map (fun c => c.rank) =
      ((sortCardsByRank l2).take 5).map (fun c => c.rank) := by
    rw [List.map_take, List.map_take, sorted_rank_map_eq hp]
  simp only [checkHighCard, evalTag]
  rw [headD_rank_congr h]

theorem findBestHand_tag {l1 l2 : List Card} (hp : l1.Perm l2) (h7 : l1.length ≤ 7) :
    evalTag (findBestHand l1) = evalTag (findBestHand l2) := by
  rw [findBestHand, findBestHand, checkRoyalFlush_perm hp, checkStraightFlush_perm hp,
    checkFlush_perm hp]
  cases checkRoyalFlush l2 with
  | some x => rfl
  | none =>
  cases checkStraightFlush l2 with
  | some x => rfl
  | none =>
  have h4 := checkFourOfAKind_perm hp h7
  rcases hf1 : checkFourOfAKind l1 with _ | a
  · rcases hf2 : checkFourOfAKind l2 with _ | b
    · have hfh := checkFullHouse_perm hp
      rcases hh1 : checkFullHouse l1 with _ | a
      · rcases hh2 : checkFullHouse l2 with _ | b
        · cases checkFlush l2 with
          | some x => rfl
          | none =>
          have hst := checkStraight_tag hp
          rcases hs1 : checkStraight l1 with _ | a
          · rcases hs2 : checkStraight l2 with _ | b
            · have h3 := checkThreeOfAKind_perm hp hh1
              rcases ht1 : checkThreeOfAKind l1 with _ | a
              · rcases ht2 : checkThreeOfAKind l2 with _ | b
                · have htp := checkTwoPair_perm hp
                  rcases hq1 : checkTwoPair l1 with _ | a
                  · rcases hq2 : checkTwoPair l2 with _ | b
                    · have hpr := checkPair_perm hp hq1
                      rcases hp1 : checkPair l1 with _ | a
                      · rcases hp2 : checkPair l2 with _ | b
                        · exact checkHighCard_tag hp
                        · rw [hp1, hp2] at hpr
                          simp at hpr
                      · rcases hp2 : checkPair l2 with _ | b
                        · rw [hp1, hp2] at hpr
                          simp at hpr
                        · rw [hp1, hp2] at hpr
                          simp only [Option.map_some', Option.some.injEq] at hpr
                          exact hpr
                    · rw [hq1, hq2] at htp
                      simp at htp
                  · rcases hq2 : checkTwoPair l2 with _ | b
                    · rw [hq1, hq2] at htp
                      simp at htp
                    · rw [hq1, hq2] at htp
                      simp only [Option.map_some', Option.some.injEq] at htp
                      exact htp
                · rw [ht1, ht2] at h3
                  simp at h3
              · rcases ht2 : checkThreeOfAKind l2 with _ | b
                · rw [ht1, ht2] at h3
                  simp at h3
                · rw [ht1, ht2] at h3
                  simp only [Option.map_some', Option.some.injEq] at h3
                  exact h3
            · rw [hs1, hs2] at hst
              simp at hst
          · rcases hs2 : checkStraight l2 with _ | b
            · rw [hs1, hs2] at hst
              simp at hst
            · rw [hs1, hs2] at hst
              simp only [Option.map_some', Option.some.injEq] at hst
              exact hst
        · rw [hh1, hh2] at hfh
          simp at hfh
      · rcases hh2 : checkFullHouse l2 with _ | b
        · rw [hh1, hh2] at hfh
          simp at hfh
        · rw [hh1, hh2] at hfh
          simp only [Option.map_some', Option.some.injEq] at hfh
          exact hfh
    · rw [hf1, hf2] at h4
      simp at h4
  · rcases hf2 : checkFourOfAKind l2 with _ | b
    · rw [hf1, hf2] at h4
      simp at h4
    · rw [hf1, hf2] at h4
      simp only [Option.map_some', Option.some.injEq] at h4
      exact h4

/-- C8: on lists of at most seven cards, evaluateHand returns the same
ranking and the same description on any permutation of its input (the
selected five cards may differ, see the counterexample). -/
theorem c8_eval_reorder {l1 l2 : List Card} (hp : l1.Perm l2) (h7 : l1.length ≤ 7) :
    (evaluateHand l1).map evalTag = (evaluateHand l2).map evalTag := by
  simp only [evaluateHand]
  rw [hp.length_eq]
  by_cases h : l2.length < 5
  · rw [if_pos h, if_pos h]
  · rw [if_neg h, if_neg h]
    simp only [Option.map_some']
    rw [findBestHand_tag hp h7]

/-- C8 counterexample: two permutations of the same six cards (the two
fives swapped) on which evaluateHand selects different five-card
lists, refuting the selected-cards part of the claim. -/
theorem c8_selected_cards_counterexample :
    wheelSixA.Perm wheelSixB ∧ wheelSixA.length ≤ 7 ∧
      (evaluateHand wheelSixA).map (fun h => h.cards) ≠
        (evaluateHand wheelSixB).map (fun h => h.cards) :=
  ⟨by simp only [wheelSixA, wheelSixB]; exact List.Perm.swap _ _ _, by decide, by decide⟩

/-- Witness for C8 at the concrete six-card permutation pair. -/
theorem c8_eval_reorder_witness :
    (evaluateHand wheelSixA).map evalTag = (evaluateHand wheelSixB).map evalTag :=
  c8_eval_reorder (by simp only [wheelSixA, wheelSixB]; exact List.Perm.swap _ _ _) (by decide)

theorem headD_mem {α : Type} {l : List α} (h : l ≠ []) (d : α) : l.headD d ∈ l := by
  cases l with
  | nil => exact absurd rfl h
  | cons a as => simp

theorem filter_two_len (l : List Card) (r : Rank) :
    (l.filter (fun c => decide (c.rank = r))).length +
      (l.filter (fun c => decide (c.rank ≠ r))).length = l.length := by
  induction l with
  | nil => rfl
  | cons c cs ih =>
      rw [List.filter_cons, List.filter_cons, List.length_cons]
      by_cases h1 : c.rank = r
      · simp [h1] at ih ⊢
        omega
      · simp [h1] at ih ⊢
        omega

theorem filter_ne2_len (l : List Card) {p1 p2 : Rank} (hne : p1 ≠ p2) :
    l.countP (fun c => decide (c.rank = p1)) + l.countP (fun c => decide (c.rank = p2)) +
      (l.filter (fun c => decide (c.rank ≠ p1 ∧ c.rank ≠ p2))).length = l.length := by
  induction l with
  | nil => rfl
  | cons c cs ih =>
      rw [List.countP_cons, List.countP_cons, List.filter_cons, List.length_cons]
      by_cases h1 : c.rank = p1
      · have h2 : c.rank ≠ p2 := fun hh => hne (h1.symm.trans hh)
        simp [h1, h2, hne] at ih ⊢
        omega
      · by_cases h2 : c.rank = p2
        · simp [h1, h2, hne, hne.symm] at ih ⊢
          omega
        · simp [h1, h2] at ih ⊢
          omega

theorem checkFlush_cards {l : List Card} {h : HandEvaluation} (hc : checkFlush l = some h) :
    h.cards.length = 5 ∧ ∀ c ∈ h.cards, c ∈ l := by
  rw [checkFlush] at hc
  obtain ⟨s, hsmem, hs⟩ := List.exists_of_findSome?_eq_some hc
  dsimp only at hs
  by_cases hlen : 5 ≤ (l.filter (fun c => decide (c.suit = s))).length
  · rw [if_pos hlen] at hs
    injection hs with hs
    subst hs
    constructor
    · dsimp only
      rw [List.length_take, (sortCardsByRank_perm _).length_eq, Nat.min_eq_left hlen]
    · intro c hcm
      dsimp only at hcm
      exact List.mem_of_mem_filter
        ((sortCardsByRank_perm _).subset (List.take_subset _ _ hcm))
  · rw [if_neg hlen] at hs
    exact Option.noConfusion hs

theorem straightFromRanks_cards {sorted : List Card} {fr : List Rank}
    (h5 : fr.length = 5) (hmem : ∀ r ∈ fr, r ∈ sorted.map (fun c => c.rank)) :
    (straightFromRanks sorted fr).cards.length = 5 ∧
      ∀ c ∈ (straightFromRanks sorted fr).cards, c ∈ sorted := by
  constructor
  · dsimp only [straightFromRanks]
    rw [List.length_map, h5]
  · intro c hcm
    dsimp only [straightFromRanks] at hcm
    rw [List.mem_map] at hcm
    obtain ⟨r, hr, hrc⟩ := hcm
    rw [← hrc]
    exact find_rank_mem (hmem r hr)

theorem findRun_cards {sorted : List Card} {rl : List Rank} {h : HandEvaluation}
    (hmem : ∀ r ∈ rl, r ∈ sorted.map (fun c => c.rank))
    (hf : findRun sorted rl = some h) :
    h.cards.length = 5 ∧ ∀ c ∈ h.cards, c ∈ sorted := by
  induction rl with
  | nil => simp [findRun] at hf
  | cons r rest ih =>
      simp only [findRun] at hf
      by_cases hcnd : (decide (((r :: rest).take 5).length = 5) &&
          isConsecutive ((r :: rest).take 5)) = true
      · rw [if_pos hcnd] at hf
        injection hf with hf
        subst hf
        have hlen5 : ((r :: rest).take 5).length = 5 := by
          have := (Bool.and_eq_true _ _).mp hcnd
          simpa using this.1
        exact straightFromRanks_cards hlen5
          (fun x hx => hmem x (List.take_subset _ _ hx))
      · rw [if_neg hcnd] at hf
        exact ih (fun x hx => hmem x (by simp [hx])) hf

theorem checkStraight_cards {l : List Card} {h : HandEvaluation}
    (hc : checkStraight l = some h) :
    h.cards.length = 5 ∧ ∀ c ∈ h.cards, c ∈ l := by
  simp only [checkStraight] at hc
  by_cases hcond : Rank.rA ∈ dedupFirst ((sortCardsByRank l).map (fun c => c.rank)) ∧
      Rank.r2 ∈ dedupFirst ((sortCardsByRank l).map (fun c => c.rank)) ∧
      Rank.r3 ∈ dedupFirst ((sortCardsByRank l).map (fun c => c.rank)) ∧
      Rank.r4 ∈ dedupFirst ((sortCardsByRank l).map (fun c => c.rank)) ∧
      Rank.r5 ∈ dedupFirst ((sortCardsByRank l).map (fun c => c.rank))
  · rw [if_pos hcond] at hc
    injection hc with hc
    subst hc
    constructor
    · dsimp only
      rw [List.length_map]
      rfl
    · intro c hcm
      dsimp only at hcm
      rw [List.mem_map] at hcm
      obtain ⟨r, hr, hrc⟩ := hcm
      rw [← hrc]
      obtain ⟨hwA, hw2, hw3, hw4, hw5⟩ := hcond
      have hrm : r ∈ (sortCardsByRank l).map (fun c => c.rank) := by
        simp only [wheelRanks, List.mem_cons, List.not_mem_nil, or_false] at hr
        rcases hr with rfl | rfl | rfl | rfl | rfl
        · exact (dedupFirst_mem _ _).mp hw5
        · exact (dedupFirst_mem _ _).mp hw4
        · exact (dedupFirst_mem _ _).mp hw3
        · exact (dedupFirst_mem _ _).mp hw2
        · exact (dedupFirst_mem _ _).mp hwA
      exact (sortCardsByRank_perm l).subset (find_rank_mem hrm)
  · rw [if_neg hcond] at hc
    have hres := findRun_cards (fun r hr => (dedupFirst_mem _ r).mp hr) hc
    exact ⟨hres.1, fun c hcm => (sortCardsByRank_perm l).subset (hres.2 c hcm)⟩

theorem checkStraightFlush_cards {l : List Card} {h : HandEvaluation}
    (hc : checkStraightFlush l = some h) :
    h.cards.length = 5 ∧ ∀ c ∈ h.cards, c ∈ l := by
  rw [checkStraightFlush] at hc
  obtain ⟨s, hsmem, hs⟩ := List.exists_of_findSome?_eq_some hc
  dsimp only at hs
  by_cases hlen : 5 ≤ (l.filter (fun c => decide (c.suit = s))).length
  · rw [if_pos hlen] at hs
    rcases hcs : checkStraight (l.filter (fun c => decide (c.suit = s))) with _ | st
    · rw [hcs] at hs
      exact Option.noConfusion hs
    · rw [hcs] at hs
      injection hs with hs
      subst hs
      obtain ⟨hl1, hl2⟩ := checkStraight_cards hcs
      exact ⟨hl1, fun c hcm => List.mem_of_mem_filter (hl2 c hcm)⟩
  · rw [if_neg hlen] at hs
    exact Option.noConfusion hs

theorem checkRoyalFlush_cards {l : List Card} {h : HandEvaluation}
    (hc : checkRoyalFlush l = some h) :
    h.cards.length = 5 ∧ ∀ c ∈ h.cards, c ∈ l := by
  rw [checkRoyalFlush] at hc
  rcases hsf : checkStraightFlush l with _ | sf
  · rw [hsf] at hc
    exact Option.noConfusion hc
  · rw [hsf] at hc
    dsimp only at hc
    by_cases hA : (sf.cards.headD defaultCard).rank = Rank.rA
    · rw [if_pos hA] at hc
      injection hc with hc
      subst hc
      obtain ⟨hl1, hl2⟩ := checkStraightFlush_cards hsf
      exact ⟨hl1, hl2⟩
    · rw [if_neg hA] at hc
      exact Option.noConfusion hc

theorem checkFourOfAKind_cards {l : List Card} {h : HandEvaluation}
    (hlen5 : 5 ≤ l.length) (hc : checkFourOfAKind l = some h) :
    h.cards.length = 5 ∧ ∀ c ∈ h.cards, c ∈ l := by
  rw [checkFourOfAKind] at hc
  rcases hf : (getRankCounts l).find? (fun e => decide (e.2 = 4)) with _ | e <;> rw [hf] at hc
  · exact Option.noConfusion hc
  · have he4 : e.2 = 4 := by simpa using List.find?_some hf
    have hecount := getRankCounts_count (List.mem_of_find?_eq_some hf)
    have hfourlen : (l.filter (fun c => decide (c.rank = e.1))).length = 4 := by
      rw [← List.countP_eq_length_filter]
      omega
    have htot := filter_two_len l e.1
    have hkick : (l.filter (fun c => decide (c.rank ≠ e.1))).length ≠ 0 := by omega
    have hsne : sortCardsByRank (l.filter (fun c => decide (c.rank ≠ e.1))) ≠ [] := by
      intro hnil
      have hle := (sortCardsByRank_perm (l.filter (fun c => decide (c.rank ≠ e.1)))).length_eq
      rw [hnil] at hle
      exact hkick hle.symm
    have hh := Option.some.inj hc
    subst hh
    constructor
    · dsimp only
      rw [List.length_append, hfourlen]
      rfl
    · intro c hcm
      dsimp only at hcm
      rcases List.mem_append.mp hcm with hcm | hcm
      · exact List.mem_of_mem_filter hcm
      · rw [List.mem_singleton] at hcm
        subst hcm
        exact List.mem_of_mem_filter
          ((sortCardsByRank_perm _).subset (headD_mem hsne defaultCard))

theorem selectPairRank_count {t : Option Rank} {es : List (Rank × Nat)} {p : Rank}
    (h : selectPairRank t es = some p) : ∃ n, (p, n) ∈ es ∧ 2 ≤ n := by
  simp only [selectPairRank] at h
  by_cases hcond : (t.isSome &&
      (maxRankBy (fun e => neqOpt e.1 t && decide (2 ≤ e.2)) es).isNone) = true
  · rw [if_pos hcond] at h
    rw [Option.map_eq_some'] at h
    obtain ⟨e, hfind, hep⟩ := h
    have h3 := List.find?_some hfind
    have hmem := List.mem_of_find?_eq_some hfind
    simp only [Bool.and_eq_true, decide_eq_true_eq] at h3
    refine ⟨e.2, ?_, by omega⟩
    rw [← hep]
    exact hmem
  · rw [if_neg hcond] at h
    obtain ⟨⟨n, hmem, hpred⟩, _⟩ := maxRankBy_spec _ _ _ h
    simp only [Bool.and_eq_true, decide_eq_true_eq] at hpred
    exact ⟨n, hmem, hpred.2⟩

theorem checkFullHouse_cards {l : List Card} {h : HandEvaluation}
    (hc : checkFullHouse l = some h) :
    h.cards.length = 5 ∧ ∀ c ∈ h.cards, c ∈ l := by
  simp only [checkFullHouse] at hc
  rcases h3 : maxRankBy (fun e => decide (3 ≤ e.2)) (getRankCounts l) with _ | t <;>
    rw [h3] at hc
  · exact Option.noConfusion hc
  · rcases hp2 : selectPairRank (some t) (getRankCounts l) with _ | p <;> rw [hp2] at hc
    · exact Option.noConfusion hc
    · have hh := Option.some.inj hc
      subst hh
      obtain ⟨⟨n, hnmem, hnpred⟩, _⟩ := maxRankBy_spec _ _ _ h3
      have hn3 : 3 ≤ n := by simpa using hnpred
      have hncount := getRankCounts_count hnmem
      have hthree : 3 ≤ (l.filter (fun c => decide (c.rank = t))).length := by
        rw [← List.countP_eq_length_filter]
        simp only at hncount
        omega
      obtain ⟨m, hmmem, hm2⟩ := selectPairRank_count hp2
      have hmcount := getRankCounts_count hmmem
      have hpair : 2 ≤ (l.filter (fun c => decide (c.rank = p))).length := by
        rw [← List.countP_eq_length_filter]
        simp only at hmcount
        omega
      constructor
      · dsimp only
        rw [List.length_append, List.length_take, List.length_take,
          Nat.min_eq_left hthree, Nat.min_eq_left hpair]
      · intro c hcm
        dsimp only at hcm
        rcases List.mem_append.mp hcm with hcm | hcm
        · exact List.mem_of_mem_filter (List.take_subset _ _ hcm)
        · exact List.mem_of_mem_filter (List.take_subset _ _ hcm)

theorem checkThreeOfAKind_cards {l : List Card} {h : HandEvaluation}
    (hlen5 : 5 ≤ l.length) (hc : checkThreeOfAKind l = some h) :
    h.cards.length = 5 ∧ ∀ c ∈ h.cards, c ∈ l := by
  rw [checkThreeOfAKind] at hc
  rcases hf : (getRankCounts l).find? (fun e => decide (e.2 = 3)) with _ | e <;> rw [hf] at hc
  · exact Option.noConfusion hc
  · have he3 : e.2 = 3 := by simpa using List.find?_some hf
    have hecount := getRankCounts_count (List.mem_of_find?_eq_some hf)
    have hthree : (l.filter (fun c => decide (c.rank = e.1))).length = 3 := by
      rw [← List.countP_eq_length_filter]
      omega
    have htot := filter_two_len l e.1
    have hkick : 2 ≤ (l.filter (fun c => decide (c.rank ≠ e.1))).length := by omega
    have hh := Option.some.inj hc
    subst hh
    constructor
    · dsimp only
      rw [List.length_append, hthree, List.length_take,
        (sortCardsByRank_perm _).length_eq, Nat.min_eq_left hkick]
    · intro c hcm
      dsimp only at hcm
      rcases List.mem_append.mp hcm with hcm | hcm
      · exact List.mem_of_mem_filter hcm
      · exact List.mem_of_mem_filter
          ((sortCardsByRank_perm _).subset (List.take_subset _ _ hcm))

theorem pairs_nodup (l : List Card) :
    (((getRankCounts l).filter (fun e => decide (2 ≤ e.2))).map (fun e => e.1)).Nodup := by
  have hsub : List.Sublist
      (((getRankCounts l).filter (fun e => decide (2 ≤ e.2))).map (fun e => e.1))
      ((getRankCounts l).map (fun e => e.1)) := (List.filter_sublist _).map _
  exact (getRankCounts_keys_nodup l).sublist hsub

theorem checkTwoPair_cards {l : List Card} {h : HandEvaluation}
    (hlen5 : 5 ≤ l.length) (hfh : checkFullHouse l = none)
    (hc : checkTwoPair l = some h) :
    h.cards.length = 5 ∧ ∀ c ∈ h.cards, c ∈ l := by
  rw [checkTwoPair] at hc
  rcases hs : sortRanksDesc (((getRankCounts l).filter
      (fun e => decide (2 ≤ e.2))).map (fun e => e.1)) with _ | ⟨p1, rest1⟩ <;>
    rw [hs] at hc
  · exact Option.noConfusion hc
  · cases rest1 with
    | nil => exact Option.noConfusion hc
    | cons p2 rest =>
        have hh := Option.some.inj hc
        subst hh
        have hp1m : p1 ∈ ((getRankCounts l).filter
            (fun e => decide (2 ≤ e.2))).map (fun e => e.1) :=
          (sortRanksDesc_perm _).subset (by rw [hs]; simp)
        have hp2m : p2 ∈ ((getRankCounts l).filter
            (fun e => decide (2 ≤ e.2))).map (fun e => e.1) :=
          (sortRanksDesc_perm _).subset (by rw [hs]; simp)
        obtain ⟨e1, he1f, he1p⟩ := List.mem_map.mp hp1m
        obtain ⟨e2, he2f, he2p⟩ := List.mem_map.mp hp2m
        have he1 := List.mem_filter.mp he1f
        have he2 := List.mem_filter.mp he2f
        have hc1 := getRankCounts_count he1.1
        have hc2 := getRankCounts_count he2.1
        have h21 : 2 ≤ e1.2 := by simpa using he1.2
        have h22 : 2 ≤ e2.2 := by simpa using he2.2
        have hnd : (sortRanksDesc (((getRankCounts l).filter
            (fun e => decide (2 ≤ e.2))).map (fun e => e.1))).Nodup :=
          ((sortRanksDesc_perm _).nodup_iff).mpr (pairs_nodup l)
        rw [hs] at hnd
        have hne : p1 ≠ p2 := by
          intro hEq
          exact (List.nodup_cons.mp hnd).1 (by simp [hEq])
        have hle1 : e1.2 ≤ 2 := by
          rcases checkFullHouse_none_cases hfh with hall | ⟨t, ht, hother⟩
          · have := hall e1 he1.1
            omega
          · by_cases h1t : e1.1 = t
            · by_cases h2t : e2.1 = t
              · exact absurd (he1p ▸ he2p ▸ (h1t.trans h2t.symm)) hne
              · have := hother e2 he2.1 h2t
                omega
            · have := hother e1 he1.1 h1t
              omega
        have hle2 : e2.2 ≤ 2 := by
          rcases checkFullHouse_none_cases hfh with hall | ⟨t, ht, hother⟩
          · have := hall e2 he2.1
            omega
          · by_cases h2t : e2.1 = t
            · by_cases h1t : e1.1 = t
              · exact absurd (he1p ▸ he2p ▸ (h1t.trans h2t.symm)) hne
              · have := hother e1 he1.1 h1t
                omega
            · have := hother e2 he2.1 h2t
              omega
        have hcp1 : l.countP (fun c => decide (c.rank = p1)) = 2 := by
          rw [← he1p]
          omega
        have hcp2 : l.countP (fun c => decide (c.rank = p2)) = 2 := by
          rw [← he2p]
          omega
        have hpl1 : (l.filter (fun c => decide (c.rank = p1))).length = 2 := by
          rw [← List.countP_eq_length_filter]
          exact hcp1
        have hpl2 : (l.filter (fun c => decide (c.rank = p2))).length = 2 := by
          rw [← List.countP_eq_length_filter]
          exact hcp2
        have htot := filter_ne2_len l hne
        have hkick : (l.filter
            (fun c => decide (c.rank ≠ p1 ∧ c.rank ≠ p2))).length ≠ 0 := by omega
        have hsne : sortCardsByRank (l.filter
            (fun c => decide (c.rank ≠ p1 ∧ c.rank ≠ p2))) ≠ [] := by
          intro hnil
          have hle := (sortCardsByRank_perm (l.filter
              (fun c => decide (c.rank ≠ p1 ∧ c.rank ≠ p2)))).length_eq
          rw [hnil] at hle
          exact hkick hle.symm
        constructor
        · dsimp only
          rw [List.length_append, List.length_append, List.length_take, List.length_take,
            hpl1, hpl2]
          rfl
        · intro c hcm
          dsimp only at hcm
          rcases List.mem_append.mp hcm with hcm | hcm
          · rcases List.mem_append.mp hcm with hcm | hcm
            · exact List.mem_of_mem_filter (List.take_subset _ _ hcm)
            · exact List.mem_of_mem_filter (List.take_subset _ _ hcm)
          · rw [List.mem_singleton] at hcm
            subst hcm
            exact List.mem_of_mem_filter
              ((sortCardsByRank_perm _).subset (headD_mem hsne defaultCard))

theorem checkPair_cards {l : List Card} {h : HandEvaluation}
    (hlen5 : 5 ≤ l.length) (hc : checkPair l = some h) :
    h.cards.length = 5 ∧ ∀ c ∈ h.cards, c ∈ l := by
  rw [checkPair] at hc
  rcases hf : (getRankCounts l).find? (fun e => decide (e.2 = 2)) with _ | e <;> rw [hf] at hc
  · exact Option.noConfusion hc
  · have he2 : e.2 = 2 := by simpa using List.find?_some hf
    have hecount := getRankCounts_count (List.mem_of_find?_eq_some hf)
    have hpairlen : (l.filter (fun c => decide (c.rank = e.1))).length = 2 := by
      rw [← List.countP_eq_length_filter]
      omega
    have htot := filter_two_len l e.1
    have hkick : 3 ≤ (l.filter (fun c => decide (c.rank ≠ e.1))).length := by omega
    have hh := Option.some.inj hc
    subst hh
    constructor
    · dsimp only
      rw [List.length_append, hpairlen, List.length_take,
        (sortCardsByRank_perm _).length_eq, Nat.min_eq_left hkick]
    · intro c hcm
      dsimp only at hcm
      rcases List.mem_append.mp hcm with hcm | hcm
      · exact List.mem_of_mem_filter hcm
      · exact List.mem_of_mem_filter
          ((sortCardsByRank_perm _).subset (List.take_subset _ _ hcm))

theorem checkHighCard_cards {l : List Card} (hlen5 : 5 ≤ l.length) :
    (checkHighCard l).cards.length = 5 ∧ ∀ c ∈ (checkHighCard l).cards, c ∈ l := by
  constructor
  · dsimp only [checkHighCard]
    rw [List.length_take, (sortCardsByRank_perm _).length_eq, Nat.min_eq_left hlen5]
  · intro c hcm
    dsimp only [checkHighCard] at hcm
    exact (sortCardsByRank_perm l).subset (List.take_subset _ _ hcm)

theorem findBestHand_cards {l : List Card} (hlen5 : 5 ≤ l.length) :
    (findBestHand l).cards.length = 5 ∧ ∀ c ∈ (findBestHand l).cards, c ∈ l := by
  rw [findBestHand]
  rcases h1 : checkRoyalFlush l with _ | x
  · rcases h2 : checkStraightFlush l with _ | x
    · rcases h3 : checkFourOfAKind l with _ | x
      · rcases h4 : checkFullHouse l with _ | x
        · rcases h5f : checkFlush l with _ | x
          · rcases h6 : checkStraight l with _ | x
            · rcases h7t : checkThreeOfAKind l with _ | x
              · rcases h8 : checkTwoPair l with _ | x
                · rcases h9 : checkPair l with _ | x
                  · exact checkHighCard_cards hlen5
                  · exact checkPair_cards hlen5 h9
                · exact checkTwoPair_cards hlen5 h4 h8
              · exact checkThreeOfAKind_cards hlen5 h7t
            · exact checkStraight_cards h6
          · exact checkFlush_cards h5f
        · exact checkFullHouse_cards h4
      · exact checkFourOfAKind_cards hlen5 h3
    · exact checkStraightFlush_cards h2
  · exact checkRoyalFlush_cards h1

/-- C9: on an input of at least five cards evaluateHand succeeds, and
the returned evaluation selects exactly five cards, each an element of
the input list, so compareHands' positional reads 0..4 are all within
both hands' card lists. -/
theorem c9_eval_five_from_input (cards : List Card) (h5 : 5 ≤ cards.length) :
    evaluateHand cards = some (findBestHand cards) ∧
      (findBestHand cards).cards.length = 5 ∧
      ∀ c ∈ (findBestHand cards).cards, c ∈ cards := by
  refine ⟨?_, findBestHand_cards h5⟩
  rw [evaluateHand, if_neg (by omega)]

/-- Witness for C9 at a concrete five-card input. -/
theorem c9_eval_five_from_input_witness :
    evaluateHand sixHighStraight = some (findBestHand sixHighStraight) ∧
      (findBestHand sixHighStraight).cards.length = 5 ∧
      ∀ c ∈ (findBestHand sixHighStraight).cards, c ∈ sixHighStraight :=
  c9_eval_five_from_input sixHighStraight (by decide)

theorem cardValAt_rank_map {cs : List Card} {rs : List Rank}
    (h : cs.map (fun c => c.rank) = rs) (i : Nat) :
    cardValAt cs i = rankValue (rs.getD i defaultCard.rank) := by
  rw [cardValAt, List.getD_eq_getElem?_getD, List.getD_eq_getElem?_getD, ← h,
    List.getElem?_map]
  rcases hx : cs[i]? with _ | c
  · rfl
  · rfl

theorem comparePositions_eq {cs1 cs2 : List Card} (ps : List Nat)
    (h : ∀ i ∈ ps, cardValAt cs1 i = cardValAt cs2 i) :
    comparePositions cs1 cs2 ps = 0 := by
  induction ps with
  | nil => rfl
  | cons i rest ih =>
      rw [comparePositions]
      have hi := h i (by simp)
      rw [hi, if_neg (lt_irrefl _), if_neg (lt_irrefl _)]
      exact ih (fun j hj => h j (by simp [hj]))

/-- C6: a card set containing the ranks A,2,3,4,5 on which none of the
higher checks (royal flush, straight flush, four of a kind, full
house, flush) fires evaluates to the wheel straight: ranking straight
with selected ranks 5,4,3,2,A (5 high); compareHands ranks it strictly
below every straight whose leading card value is at least 6, and ties
it exactly against any other wheel-ranked straight. -/
theorem c6_wheel (cards : List Card) (h5 : 5 ≤ cards.length)
    (hrf : checkRoyalFlush cards = none) (hsf : checkStraightFlush cards = none)
    (h4k : checkFourOfAKind cards = none) (hfh : checkFullHouse cards = none)
    (hfl : checkFlush cards = none)
    (hmA : Rank.rA ∈ cards.map (fun c => c.rank))
    (hm2 : Rank.r2 ∈ cards.map (fun c => c.rank))
    (hm3 : Rank.r3 ∈ cards.map (fun c => c.rank))
    (hm4 : Rank.r4 ∈ cards.map (fun c => c.rank))
    (hm5 : Rank.r5 ∈ cards.map (fun c => c.rank)) :
    evaluateHand cards = some (findBestHand cards) ∧
      (findBestHand cards).ranking = HandRanking.straight ∧
      (findBestHand cards).cards.map (fun c => c.rank) = wheelRanks ∧
      (∀ other : HandEvaluation, other.ranking = HandRanking.straight →
        6 ≤ cardValAt other.cards 0 → compareHands (findBestHand cards) other < 0) ∧
      (∀ other : HandEvaluation, other.ranking = HandRanking.straight →
        other.cards.map (fun c => c.rank) = wheelRanks →
        compareHands (findBestHand cards) other = 0) := by
  have hmm : ∀ x, x ∈ cards.map (fun c => c.rank) →
      x ∈ (sortCardsByRank cards).map (fun c => c.rank) :=
    fun x hx => (((sortCardsByRank_perm cards).map _).mem_iff).mpr hx
  have hcond : Rank.rA ∈ dedupFirst ((sortCardsByRank cards).map (fun c => c.rank)) ∧
      Rank.r2 ∈ dedupFirst ((sortCardsByRank cards).map (fun c => c.rank)) ∧
      Rank.r3 ∈ dedupFirst ((sortCardsByRank cards).map (fun c => c.rank)) ∧
      Rank.r4 ∈ dedupFirst ((sortCardsByRank cards).map (fun c => c.rank)) ∧
      Rank.r5 ∈ dedupFirst ((sortCardsByRank cards).map (fun c => c.rank)) :=
    ⟨(dedupFirst_mem _ _).mpr (hmm _ hmA), (dedupFirst_mem _ _).mpr (hmm _ hm2),
     (dedupFirst_mem _ _).mpr (hmm _ hm3), (dedupFirst_mem _ _).mpr (hmm _ hm4),
     (dedupFirst_mem _ _).mpr (hmm _ hm5)⟩
  have hstr : checkStraight cards = some
      { ranking := HandRanking.straight
        cards := wheelRanks.map (fun r =>
          ((sortCardsByRank cards).find? (fun c => decide (c.rank = r))).getD defaultCard)
        description := "Straight, 5 high (Wheel)" } := by
    simp only [checkStraight]
    rw [if_pos hcond]
  have hbest : findBestHand cards =
      { ranking := HandRanking.straight
        cards := wheelRanks.map (fun r =>
          ((sortCardsByRank cards).find? (fun c => decide (c.rank = r))).getD defaultCard)
        description := "Straight, 5 high (Wheel)" } := by
    rw [findBestHand, hrf, hsf, h4k, hfh, hfl, hstr]
  have hr1 : (findBestHand cards).ranking = HandRanking.straight := by rw [hbest]
  have hrankmap : (findBestHand cards).cards.map (fun c => c.rank) = wheelRanks := by
    rw [hbest]
    dsimp only
    rw [List.map_map]
    have hp : ∀ r ∈ wheelRanks, ((fun c => c.rank) ∘ fun r =>
        ((sortCardsByRank cards).find? (fun c => decide (c.rank = r))).getD defaultCard) r
        = r := by
      intro r hr
      simp only [wheelRanks, List.mem_cons, List.not_mem_nil, or_false] at hr
      rcases hr with rfl | rfl | rfl | rfl | rfl
      · exact find_rank_rank (hmm _ hm5)
      · exact find_rank_rank (hmm _ hm4)
      · exact find_rank_rank (hmm _ hm3)
      · exact find_rank_rank (hmm _ hm2)
      · exact find_rank_rank (hmm _ hmA)
    rw [List.map_congr_left hp, List.map_id']
  refine ⟨?_, hr1, hrankmap, ?_, ?_⟩
  · rw [evaluateHand, if_neg (by omega)]
  · intro other hor ho6
    simp only [compareHands]
    rw [hr1, hor, if_neg (lt_irrefl _), if_neg (lt_irrefl _), comparePositions]
    have hv1 : cardValAt (findBestHand cards).cards 0 = 5 := by
      rw [cardValAt_rank_map hrankmap 0]
      rfl
    rw [hv1, if_neg (by omega), if_pos (by omega)]
    decide
  · intro other hor hmap
    simp only [compareHands]
    rw [hr1, hor, if_neg (lt_irrefl _), if_neg (lt_irrefl _)]
    apply comparePositions_eq
    intro i hi
    rw [cardValAt_rank_map hrankmap i, cardValAt_rank_map hmap i]

/-- Witness for C6: the concrete mixed-suit wheel evaluates as the
5-high straight, loses to the concrete 6-high straight, and ties a
wheel. -/
theorem c6_wheel_witness :
    evaluateHand wheelFive = some (findBestHand wheelFive) ∧
      (findBestHand wheelFive).ranking = HandRanking.straight ∧
      (findBestHand wheelFive).cards.map (fun c => c.rank) = wheelRanks ∧
      compareHands (findBestHand wheelFive) (findBestHand sixHighStraight) < 0 ∧
      compareHands (findBestHand wheelFive) (findBestHand wheelFive) = 0 := by
  obtain ⟨ha, hb, hcc, hd, he⟩ := c6_wheel wheelFive (by decide) (by decide) (by decide)
    (by decide) (by decide) (by decide) (by decide) (by decide) (by decide) (by decide)
    (by decide)
  exact ⟨ha, hb, hcc, hd (findBestHand sixHighStraight) (by decide) (by decide),
    he (findBestHand wheelFive) hb hcc⟩

end Poker
